import Mathlib

/-!
# Puzzle-Backend: weekly quiz submissions, leaderboard and rotation

A shallow embedding of `src/server.js`.  The three Mongoose collections are lists of
documents in collection order; the two request handlers and the scheduled job are pure
functions on the store.

Modelling conventions
* `Number` fields that hold a week are `Int`; the counters `attempts` and `problemsSolved`
  (default `0`, only ever incremented or reset to `0`) are `Nat`.  A JavaScript `Number` is an
  IEEE-754 double, so `x + 1` and `x++` are the exact sum rounded to the nearest double
  (`jsAddOne`, `jsInc`); the rounding is the identity up to `2 ^ 53`.
* `Model.findOne(filter)` returns the first matching document in collection order.
* `.sort(keys)` orders by the given keys only; the order of documents that tie on the keys is
  left to the database engine and may differ from one query to the next (`TieOrder`).
* `doc.save()` overwrites the document that `findOne` returned, or appends a new document.
-/

namespace PuzzleBackend

/-! ## Data model (`UserSchema`, `LeaderboardSchema`, `ProblemSchema`) -/

/-- One element of `UserSchema.responses`: `{ week, answer, correct }`. -/
structure Response where
  week : Int
  answer : String
  correct : Bool
  deriving DecidableEq

/-- A `User` document. -/
structure User where
  name : String
  email : String
  attempts : Nat
  problemsSolved : Nat
  responses : List Response
  deriving DecidableEq

/-- One element of `LeaderboardSchema.topPlayers`, which is also the shape selected by
`.select("name problemsSolved attempts -_id")`. -/
structure Player where
  name : String
  problemsSolved : Nat
  attempts : Nat
  deriving DecidableEq

/-- A `Leaderboard` document. -/
structure Leaderboard where
  week : Int
  topPlayers : List Player
  deriving DecidableEq

/-- A `Problem` document. -/
structure Problem where
  week : Int
  correctAnswer : String
  deriving DecidableEq

/-- The database: the three collections, each in collection (insertion) order. -/
structure Store where
  users : List User
  leaderboards : List Leaderboard
  problems : List Problem
  deriving DecidableEq

/-- The JSON body of `POST /submit`; a field that is absent from the body is `none`. -/
structure Body where
  name : Option String
  email : Option String
  answer : Option String
  week : Option Int
  deriving DecidableEq

/-- What the handler sends back: `res.status(..).json({ message, correct? })`. -/
structure Reply where
  status : Nat
  message : String
  correct : Option Bool
  deriving DecidableEq

/-! ## JavaScript truthiness of the request fields -/

/-- JavaScript `!x` for a string-valued field: true when it is absent or the empty string. -/
def notStr : Option String → Bool
  | none => true
  | some x => x == ""

/-- JavaScript `!x` for an integer-valued field: true when it is absent or `0`. -/
def notNum : Option Int → Bool
  | none => true
  | some x => x == 0

/-- JavaScript `x?.week || 0` on an optional week: `0` when absent or falsy. -/
def orZero : Option Int → Int
  | none => 0
  | some w => if w = 0 then 0 else w

/-! ## JavaScript numbers

The stored numbers of this program are integers, held as IEEE-754 doubles (53 significant
bits).  Adding one is exact in the integers and the sum is then rounded to the nearest double,
ties going to the double with an even significand. -/

/-- The number of binary digits of `n`, found with at most `fuel` halvings; `fuel := n` is
always enough. -/
def bitLength : Nat → Nat → Nat
  | 0, _ => 0
  | fuel + 1, n => if n = 0 then 0 else bitLength fuel (n / 2) + 1

/-- The natural number `n` rounded to the nearest double: `ulp` is the spacing of the doubles
at the magnitude of `n` (`1` for `n < 2 ^ 53`), and a tie goes to the even multiple of `ulp`. -/
def roundDouble (n : Nat) : Nat :=
  let ulp := 2 ^ (bitLength n n - 53)
  let q := n / ulp
  let r := n % ulp
  if 2 * r < ulp then q * ulp
  else if ulp < 2 * r then (q + 1) * ulp
  else if q % 2 = 0 then q * ulp else (q + 1) * ulp

/-- JavaScript `x++` on a counter (`user.attempts++`, `user.problemsSolved++`). -/
def jsInc (n : Nat) : Nat :=
  roundDouble (n + 1)

/-- JavaScript `x + 1` on an integer-valued `Number` of either sign (`latestWeek + 1`). -/
def jsAddOne (x : Int) : Int :=
  if 0 ≤ x + 1 then (roundDouble (x + 1).toNat : Int) else -(roundDouble (-(x + 1)).toNat : Int)

/-! ## `POST /submit` -/

/-- The body of `res.status(400).json({ message: "Missing required fields" })`. -/
def missingFields : Reply := ⟨400, "Missing required fields", none⟩

/-- The body of `res.status(400).json({ message: "Maximum attempts reached for this week" })`. -/
def attemptLimit : Reply := ⟨400, "Maximum attempts reached for this week", none⟩

/-- The body of `res.status(500).json({ message: "Problem not found for this week" })`. -/
def problemNotFound : Reply := ⟨500, "Problem not found for this week", none⟩

/-- The body of `res.json({ message: "Response submitted", correct: isCorrect })`. -/
def submitted (isCorrect : Bool) : Reply := ⟨200, "Response submitted", some isCorrect⟩

/-- The query `User.findOne({ email })`. -/
def findUser (users : List User) (email : String) : Option User :=
  users.find? (fun u => u.email == email)

/-- The query `Problem.findOne({ week })`. -/
def findProblem (problems : List Problem) (week : Int) : Option Problem :=
  problems.find? (fun p => p.week == week)

/-- The document `new User({ name, email, responses: [] })`, counters at their defaults. -/
def newUser (name email : String) : User :=
  { name := name, email := email, attempts := 0, problemsSolved := 0, responses := [] }

/-- Overwrite the document that `User.findOne({ email })` returned with `doc`. -/
def overwriteFound (email : String) (doc : User) : List User → List User
  | [] => []
  | u :: us => if u.email == email then doc :: us else u :: overwriteFound email doc us

/-- The call `user.save()` in the handler: the document found by email is updated in place; a
document made by `new User` is inserted at the end of the collection. -/
def saveUser (users : List User) (email : String) (doc : User) : List User :=
  match findUser users email with
  | some _ => overwriteFound email doc users
  | none => users ++ [doc]

/-- The count `user.responses.filter(r => r.week === week).length`. -/
def attemptsThisWeek (user : User) (week : Int) : Nat :=
  (user.responses.filter (fun r => r.week == week)).length

/-- The handler of `POST /submit` (server.js lines 53-84): the new store and the reply.
Past the validation guard every field is present, so the `getD` defaults are never taken. -/
def submit (s : Store) (req : Body) : Store × Reply :=
  if notStr req.name || notStr req.email || notStr req.answer || notNum req.week then
    (s, missingFields)
  else
    let name := req.name.getD ""
    let email := req.email.getD ""
    let answer := req.answer.getD ""
    let week := req.week.getD 0
    let user := (findUser s.users email).getD (newUser name email)
    if attemptsThisWeek user week ≥ 3 then
      (s, attemptLimit)
    else
      match findProblem s.problems week with
      | none => (s, problemNotFound)
      | some problem =>
        let isCorrect := decide (answer = problem.correctAnswer)
        let response : Response := { week := week, answer := answer, correct := isCorrect }
        let user1 := { user with responses := user.responses ++ [response] }
        let user2 := { user1 with attempts := jsInc user1.attempts }
        let user3 :=
          if isCorrect then { user2 with problemsSolved := jsInc user2.problemsSolved } else user2
        ({ s with users := saveUser s.users email user3 }, submitted isCorrect)

/-! ## `GET /leaderboard` -/

/-- The sort key `{ problemsSolved: -1, attempts: 1 }`: `a` may come before `b`. -/
def rankBefore (a b : User) : Prop :=
  b.problemsSolved < a.problemsSolved ∨
    (a.problemsSolved = b.problemsSolved ∧ a.attempts ≤ b.attempts)

instance rankBeforeDecidable : DecidableRel rankBefore :=
  fun _ _ => inferInstanceAs (Decidable (_ ∨ _))

/-- The projection `.select("name problemsSolved attempts -_id")`. -/
def project (u : User) : Player :=
  { name := u.name, problemsSolved := u.problemsSolved, attempts := u.attempts }

/-- How the database engine orders, for one query, the documents that tie on the sort keys:
the arrangement of the collection in which the engine meets the documents.  MongoDB promises
no particular order for ties, so each query takes its own `TieOrder`. -/
structure TieOrder where
  arrange : List User → List User
  perm : ∀ users : List User, (arrange users).Perm users

/-- Ties come out in collection (insertion) order. -/
def collectionOrder : TieOrder :=
  { arrange := fun users => users, perm := fun users => List.Perm.refl users }

/-- Ties come out in reverse collection order. -/
def reverseOrder : TieOrder :=
  { arrange := fun users => users.reverse, perm := fun users => List.reverse_perm users }

/-- The query `User.find().sort({ problemsSolved: -1, attempts: 1 })`: the documents sorted by
the keys, ties in the order `tie` hands them over. -/
def sortedUsers (tie : TieOrder) (users : List User) : List User :=
  (tie.arrange users).insertionSort rankBefore

/-- The handler of `GET /leaderboard` (server.js lines 87-94): the JSON array sent back. -/
def leaderboard (tie : TieOrder) (s : Store) : List Player :=
  ((sortedUsers tie s.users).take 10).map project

/-- The pair of sort keys of a user document: `(problemsSolved, attempts)`. -/
def sortKey (u : User) : Nat × Nat :=
  (u.problemsSolved, u.attempts)

/-- The pair of sort keys shown by a leaderboard entry. -/
def playerKey (p : Player) : Nat × Nat :=
  (p.problemsSolved, p.attempts)

/-- The sort order `{ problemsSolved: -1, attempts: 1 }` on pairs of keys. -/
def keyBefore (a b : Nat × Nat) : Prop :=
  b.1 < a.1 ∨ (a.1 = b.1 ∧ a.2 ≤ b.2)

/-! ## The weekly job `resetLeaderboard` -/

/-- The sort key `{ week: -1 }` on Leaderboard documents. -/
def weekDesc (a b : Leaderboard) : Prop := b.week ≤ a.week

instance weekDescDecidable : DecidableRel weekDesc :=
  fun a b => inferInstanceAs (Decidable (b.week ≤ a.week))

/-- The expression `(await Leaderboard.findOne().sort({ week: -1 }))?.week || 0`. -/
def latestWeek (leaderboards : List Leaderboard) : Int :=
  orZero ((leaderboards.insertionSort weekDesc).head?.map (fun l => l.week))

/-- The scheduled job `resetLeaderboard` (server.js lines 97-111). -/
def resetLeaderboard (tie : TieOrder) (s : Store) : Store :=
  let newWeek := jsAddOne (latestWeek s.leaderboards)
  let topPlayers := ((sortedUsers tie s.users).take 3).map project
  let leaderboards := s.leaderboards ++ [{ week := newWeek, topPlayers := topPlayers }]
  let users := s.users.map (fun u => { u with problemsSolved := 0, responses := [] })
  let problems := s.problems ++ [{ week := newWeek, correctAnswer := "NewAnswerHere" }]
  { users := users, leaderboards := leaderboards, problems := problems }

/-! ## Sequential runs -/

/-- One operation on the store: a submission request, or a firing of the weekly job together
with the order in which the engine resolves ties in its top-3 query. -/
inductive Op where
  | submit (req : Body)
  | rotate (tie : TieOrder)

/-- The store after one operation. -/
def step (s : Store) : Op → Store
  | Op.submit req => (submit s req).1
  | Op.rotate tie => resetLeaderboard tie s

/-- The store after a sequence of operations, run one after the other. -/
def run (s : Store) (ops : List Op) : Store :=
  ops.foldl step s

/-- The store with no documents at all. -/
def emptyStore : Store := { users := [], leaderboards := [], problems := [] }

/-- The attempt cap: no user holds more than three responses for any one week. -/
def AttemptCap (s : Store) : Prop :=
  ∀ u ∈ s.users, ∀ w : Int, attemptsThisWeek u w ≤ 3


/-- The handler of `GET /leaderboard` seen as an operation on the store: it issues the one
`find` query and no write, so the store it leaves is the store it was given. -/
def leaderboardRequest (tie : TieOrder) (s : Store) : Store × List Player :=
  (s, leaderboard tie s)

/-- Whether the operation, run on `s`, is a submission by `email` for `week` that is scored, that
is, answered with status 200. -/
def accepted (s : Store) (email : String) (week : Int) : Op → Bool
  | Op.submit req =>
    req.email == some email && req.week == some week && (submit s req).2.status == 200
  | Op.rotate _ => false

/-- The number of scored submissions by `email` for `week` over a whole run from `s`. -/
def acceptedCount (s : Store) (email : String) (week : Int) : List Op → Nat
  | [] => 0
  | op :: ops =>
    (if accepted s email week op then 1 else 0) + acceptedCount (step s op) email week ops

/-- The number of scored submissions by `email` for `week` since the last rotation of the run
(since its start when it has none), counted on top of `sofar`. -/
def acceptedSinceRotate (s : Store) (email : String) (week : Int) : List Op → Nat → Nat
  | [], sofar => sofar
  | Op.rotate tie :: ops, _ => acceptedSinceRotate (resetLeaderboard tie s) email week ops 0
  | Op.submit req :: ops, sofar =>
    acceptedSinceRotate (submit s req).1 email week ops
      (sofar + (if accepted s email week (Op.submit req) then 1 else 0))

/-- Score and history agree as far as a double counter that starts at 0 can tell:
`problemsSolved` is the number of stored responses marked correct, capped at `2 ^ 53` where the
counter stops growing; `attempts` never exceeds that cap and is no smaller than the length of the
history, capped likewise. -/
def Consistent (s : Store) : Prop :=
  ∀ u ∈ s.users,
    u.problemsSolved = min (u.responses.filter (fun r => r.correct)).length (2 ^ 53) ∧
      u.attempts ≤ 2 ^ 53 ∧ min u.responses.length (2 ^ 53) ≤ u.attempts

/-- No Problem document is ahead of the Leaderboard history: every Problem week is at most
`latestWeek`, the week the job derives the next week from. -/
def ProblemsBehind (s : Store) : Prop :=
  ∀ p ∈ s.problems, p.week ≤ latestWeek s.leaderboards

/-! ## Concrete stores used in the examples -/

/-- A store that holds a Problem with week 0 next to the week-1 problem. -/
def weekZeroStore : Store :=
  { users := []
    leaderboards := []
    problems := [{ week := 0, correctAnswer := "zero" }, { week := 1, correctAnswer := "42" }] }

/-- A run from the empty store: the job fires, Ann is scored three times for week 1, the job
fires again, and Ann is scored for week 1 once more. -/
def replayOps : List Op :=
  [Op.rotate collectionOrder,
   Op.submit ⟨some "Ann", some "ann@x.io", some "a", some 1⟩,
   Op.submit ⟨some "Ann", some "ann@x.io", some "b", some 1⟩,
   Op.submit ⟨some "Ann", some "ann@x.io", some "c", some 1⟩,
   Op.rotate collectionOrder,
   Op.submit ⟨some "Ann", some "ann@x.io", some "d", some 1⟩]


/-- A store with the week-1 problem configured and no users yet. -/
def weekOneStore : Store :=
  { users := [], leaderboards := [], problems := [{ week := 1, correctAnswer := "42" }] }

/-- A store in which Ann already holds three responses for week 1 and one for week 2. -/
def cappedStore : Store :=
  { users :=
      [{ name := "Bob", email := "bob@x.io", attempts := 1, problemsSolved := 1,
         responses := [{ week := 1, answer := "42", correct := true }] },
       { name := "Ann", email := "ann@x.io", attempts := 4, problemsSolved := 1,
         responses :=
           [{ week := 1, answer := "40", correct := false },
            { week := 2, answer := "7", correct := true },
            { week := 1, answer := "41", correct := false },
            { week := 1, answer := "43", correct := false }] }]
    leaderboards := []
    problems := [{ week := 1, correctAnswer := "42" }, { week := 2, correctAnswer := "7" }] }

/-- A store whose Leaderboard history ends at week 5 (stored out of order) and whose users have
live scores. -/
def weekFiveStore : Store :=
  { users :=
      [{ name := "Ann", email := "ann@x.io", attempts := 9, problemsSolved := 1,
         responses := [{ week := 5, answer := "x", correct := true }] },
       { name := "Bob", email := "bob@x.io", attempts := 4, problemsSolved := 2,
         responses :=
           [{ week := 5, answer := "x", correct := true },
            { week := 5, answer := "x", correct := true }] },
       { name := "Cy", email := "cy@x.io", attempts := 7, problemsSolved := 1,
         responses := [{ week := 5, answer := "x", correct := true }] },
       { name := "Di", email := "di@x.io", attempts := 2, problemsSolved := 0,
         responses := [{ week := 5, answer := "y", correct := false }] }]
    leaderboards :=
      [{ week := 3, topPlayers := [] },
       { week := 5, topPlayers := [{ name := "Bob", problemsSolved := 3, attempts := 3 }] },
       { week := 4, topPlayers := [] }]
    problems := [{ week := 5, correctAnswer := "x" }] }

/-- A store in which Ann's lifetime `attempts` has reached `2 ^ 53` and Bob's `2 ^ 53 + 2`. -/
def saturatedStore : Store :=
  { users :=
      [{ name := "Ann", email := "ann@x.io", attempts := 9007199254740992, problemsSolved := 0,
         responses := [] },
       { name := "Bob", email := "bob@x.io", attempts := 9007199254740994, problemsSolved := 0,
         responses := [] }]
    leaderboards := []
    problems := [{ week := 1, correctAnswer := "42" }] }

/-- A store whose only Leaderboard record and only Problem record have week `2 ^ 53`. -/
def weekMaxStore : Store :=
  { users := []
    leaderboards := [{ week := 9007199254740992, topPlayers := [] }]
    problems := [{ week := 9007199254740992, correctAnswer := "x" }] }

/-- A store whose four users tie on both sort keys (1 solved, 2 attempts each). -/
def tiedStore : Store :=
  { users :=
      [{ name := "Ann", email := "ann@x.io", attempts := 2, problemsSolved := 1,
         responses := [{ week := 1, answer := "42", correct := true }] },
       { name := "Bob", email := "bob@x.io", attempts := 2, problemsSolved := 1,
         responses := [{ week := 1, answer := "42", correct := true }] },
       { name := "Cy", email := "cy@x.io", attempts := 2, problemsSolved := 1,
         responses := [{ week := 1, answer := "42", correct := true }] },
       { name := "Di", email := "di@x.io", attempts := 2, problemsSolved := 1,
         responses := [{ week := 1, answer := "42", correct := true }] }]
    leaderboards := []
    problems := [{ week := 1, correctAnswer := "42" }] }

/-- The user document as lines 76-80 of the handler leave it: one response appended,
`attempts` incremented, `problemsSolved` incremented when the answer is correct. -/
def scored (old : User) (week : Int) (answer : String) (isCorrect : Bool) : User :=
  { name := old.name
    email := old.email
    attempts := jsInc old.attempts
    problemsSolved := if isCorrect then jsInc old.problemsSolved else old.problemsSolved
    responses := old.responses ++ [{ week := week, answer := answer, correct := isCorrect }] }

/-! ## Facts about JavaScript numbers -/

/-- A number below `2 ^ k` has at most `k` binary digits. -/
theorem bitLength_le (fuel : Nat) : ∀ (n k : Nat), n < 2 ^ k → bitLength fuel n ≤ k := by
  induction fuel with
  | zero => intro n k _; simp [bitLength]
  | succ fuel ih =>
    intro n k h
    simp only [bitLength]
    split
    · exact Nat.zero_le _
    · rename_i hn
      cases k with
      | zero =>
        simp only [pow_zero, Nat.lt_one_iff] at h
        exact absurd h hn
      | succ k =>
        have hhalf : n / 2 < 2 ^ k := by
          rw [Nat.div_lt_iff_lt_mul (by decide : 0 < 2)]
          rw [pow_succ] at h
          exact h
        have := ih (n / 2) k hhalf
        omega

/-- With fuel `n` or more the halvings do not run out: `n` is below two to its digit count. -/
theorem lt_two_pow_bitLength (fuel : Nat) : ∀ n : Nat, n ≤ fuel → n < 2 ^ bitLength fuel n := by
  induction fuel with
  | zero =>
    intro n h
    have : n = 0 := Nat.le_zero.1 h
    subst this
    simp [bitLength]
  | succ fuel ih =>
    intro n h
    simp only [bitLength]
    split
    · rename_i hn
      subst hn
      simp
    · rename_i hn
      have hhalf := ih (n / 2) (by omega)
      rw [pow_succ]
      omega

/-- A positive number is at least two to its digit count less one, whatever the fuel. -/
theorem two_pow_bitLength_le (fuel : Nat) :
    ∀ n : Nat, n ≠ 0 → 2 ^ (bitLength fuel n - 1) ≤ n := by
  induction fuel with
  | zero =>
    intro n hn
    simp only [bitLength, Nat.zero_sub, pow_zero]
    omega
  | succ fuel ih =>
    intro n hn
    simp only [bitLength, hn, if_false, Nat.add_sub_cancel]
    by_cases hb : bitLength fuel (n / 2) = 0
    · rw [hb, pow_zero]
      omega
    · have hhalf : n / 2 ≠ 0 := by
        intro h0
        apply hb
        rw [h0]
        cases fuel <;> simp [bitLength]
      have h1 := ih (n / 2) hhalf
      have hsplit : bitLength fuel (n / 2) = (bitLength fuel (n / 2) - 1) + 1 := by omega
      rw [hsplit, pow_succ]
      omega

/-- Every natural number up to `2 ^ 53` is a double: rounding leaves it as it is. -/
theorem roundDouble_of_le (n : Nat) (h : n ≤ 2 ^ 53) : roundDouble n = n := by
  rcases Nat.lt_or_ge n (2 ^ 53) with hlt | hge
  · have hbits : bitLength n n - 53 = 0 := by
      have := bitLength_le n n 53 hlt
      omega
    simp [roundDouble, hbits, Nat.mod_one]
  · have : n = 2 ^ 53 := Nat.le_antisymm h hge
    subst this
    decide

/-- Below `2 ^ 53` the increment of a counter is exact. -/
theorem jsInc_of_lt (n : Nat) (h : n < 2 ^ 53) : jsInc n = n + 1 :=
  roundDouble_of_le (n + 1) h

/-- At `2 ^ 53` the increment of a counter is lost: `2 ^ 53 + 1` is no double and rounds back. -/
theorem jsInc_two_pow : jsInc (2 ^ 53) = 2 ^ 53 := by
  decide

/-- For a week from `-(2 ^ 53) - 1` up to `2 ^ 53 - 1` adding one is exact. -/
theorem jsAddOne_of_safe (x : Int) (hlo : -(2 ^ 53) ≤ x + 1) (hhi : x < 2 ^ 53) :
    jsAddOne x = x + 1 := by
  unfold jsAddOne
  split
  · rename_i hnn
    rw [roundDouble_of_le _ (by omega)]
    omega
  · rename_i hneg
    rw [roundDouble_of_le _ (by omega)]
    omega

/-- At `2 ^ 53` adding one to a week is lost. -/
theorem jsAddOne_two_pow : jsAddOne (2 ^ 53) = 2 ^ 53 := by
  decide

/-! ## Basic facts about the handlers -/

/-- A request that passes the validation guard: all four fields present and truthy. -/
theorem submit_of_valid (s : Store) (n e a : String) (w : Int)
    (hn : n ≠ "") (he : e ≠ "") (ha : a ≠ "") (hw : w ≠ 0) :
    submit s ⟨some n, some e, some a, some w⟩ =
      if attemptsThisWeek ((findUser s.users e).getD (newUser n e)) w ≥ 3 then
        (s, attemptLimit)
      else
        match findProblem s.problems w with
        | none => (s, problemNotFound)
        | some problem =>
          (Store.mk
              (saveUser s.users e
                (scored ((findUser s.users e).getD (newUser n e)) w a
                  (decide (a = problem.correctAnswer))))
              s.leaderboards s.problems,
            submitted (decide (a = problem.correctAnswer))) := by
  have hg : (notStr (some n) || notStr (some e) || notStr (some a) || notNum (some w)) = false := by
    simp [notStr, notNum, hn, he, ha, hw]
  unfold submit
  simp only [hg, Option.getD_some, Bool.false_eq_true, if_false]
  split
  · rfl
  · cases hp : findProblem s.problems w with
    | none => simp
    | some p =>
      by_cases hc : a = p.correctAnswer <;> simp [hc, scored]

/-- A request that fails the validation guard leaves the store alone. -/
theorem submit_of_invalid (s : Store) (req : Body)
    (h : (notStr req.name || notStr req.email || notStr req.answer || notNum req.week) = true) :
    submit s req = (s, missingFields) := by
  unfold submit
  simp only [h, if_true]

/-- A request passes the validation guard exactly when it has four truthy fields. -/
theorem valid_iff (req : Body) :
    (notStr req.name || notStr req.email || notStr req.answer || notNum req.week) = false ↔
      ∃ n e a w, req = ⟨some n, some e, some a, some w⟩ ∧ n ≠ "" ∧ e ≠ "" ∧ a ≠ "" ∧ w ≠ 0 := by
  obtain ⟨n, e, a, w⟩ := req
  constructor
  · intro h
    simp only [Bool.or_eq_false_iff] at h
    obtain ⟨⟨⟨h1, h2⟩, h3⟩, h4⟩ := h
    cases n <;> cases e <;> cases a <;> cases w <;> simp_all [notStr, notNum]
    exact ⟨_, _, _, _, ⟨rfl, rfl, rfl, rfl⟩, h1, h2, h3, h4⟩
  · rintro ⟨n, e, a, w, h, hn, he, ha, hw⟩
    cases h
    simp [notStr, notNum, hn, he, ha, hw]

/-- The document returned by `findUser` is in the collection and carries the email. -/
theorem findUser_some {users : List User} {e : String} {u : User}
    (h : findUser users e = some u) : u ∈ users ∧ u.email = e := by
  unfold findUser at h
  refine ⟨List.mem_of_find?_eq_some h, ?_⟩
  have := List.find?_some h
  simpa using this

/-- Every document after `saveUser` is an old document or the saved one. -/
theorem mem_saveUser {users : List User} {e : String} {doc u : User}
    (h : u ∈ saveUser users e doc) : u ∈ users ∨ u = doc := by
  unfold saveUser at h
  split at h
  · clear * - h
    induction users with
    | nil => simp [overwriteFound] at h
    | cons x xs ih =>
      simp only [overwriteFound] at h
      split at h
      · rcases List.mem_cons.1 h with h | h
        · exact Or.inr h
        · exact Or.inl (List.mem_cons_of_mem _ h)
      · rcases List.mem_cons.1 h with h | h
        · exact Or.inl (h ▸ List.mem_cons_self _ _)
        · rcases ih h with h | h
          · exact Or.inl (List.mem_cons_of_mem _ h)
          · exact Or.inr h
  · rcases List.mem_append.1 h with h | h
    · exact Or.inl h
    · exact Or.inr (by simpa using h)

/-- After `saveUser` with a document carrying the email, `findUser` returns that document. -/
theorem findUser_saveUser (users : List User) (e : String) (doc : User) (hdoc : doc.email = e) :
    findUser (saveUser users e doc) e = some doc := by
  unfold saveUser
  cases hf : findUser users e with
  | some u =>
    simp only
    induction users with
    | nil => simp [findUser] at hf
    | cons x xs ih =>
      simp only [overwriteFound]
      by_cases hx : x.email = e
      · simp [hx, findUser, hdoc]
      · have hx2 : (x.email == e) = false := by simpa using hx
        unfold findUser at ih hf ⊢
        simp only [List.find?_cons, hx2] at hf
        simp only [hx2, List.find?_cons, Bool.false_eq_true, if_false]
        exact ih hf
  | none =>
    simp only
    unfold findUser at hf ⊢
    rw [List.find?_append, hf]
    simp [hdoc]

/-- Appending the scored response raises the count of its own week by one and no other. -/
theorem attemptsThisWeek_scored (old : User) (w : Int) (a : String) (c : Bool) (v : Int) :
    attemptsThisWeek (scored old w a c) v = attemptsThisWeek old v + (if w = v then 1 else 0) := by
  unfold attemptsThisWeek scored
  by_cases h : w = v <;> simp [List.filter_append, List.filter_cons, h]

/-- The document the handler works on holds at most three responses per week when every stored
document does. -/
theorem attemptsThisWeek_getD_le (s : Store) (h : AttemptCap s) (n e : String) (v : Int) :
    attemptsThisWeek ((findUser s.users e).getD (newUser n e)) v ≤ 3 := by
  cases hf : findUser s.users e with
  | none => simp [attemptsThisWeek, newUser]
  | some u => exact h u (findUser_some hf).1 v

/-- A submission, accepted or not, keeps the attempt cap. -/
theorem attemptCap_submit (s : Store) (req : Body) (h : AttemptCap s) :
    AttemptCap (submit s req).1 := by
  by_cases hg : (notStr req.name || notStr req.email || notStr req.answer || notNum req.week) = true
  · rw [submit_of_invalid s req hg]
    exact h
  · obtain ⟨n, e, a, w, rfl, hn, he, ha, hw⟩ := (valid_iff req).1 (by simpa using hg)
    rw [submit_of_valid s n e a w hn he ha hw]
    split
    · exact h
    · rename_i hlt
      split
      · exact h
      · intro u hu v
        rcases mem_saveUser hu with hu | rfl
        · exact h u hu v
        · rw [attemptsThisWeek_scored]
          have hle := attemptsThisWeek_getD_le s h n e v
          by_cases hwv : w = v
          · subst hwv
            simp only [if_true]
            omega
          · simp only [hwv, if_false]
            omega

/-- The weekly job empties every response history, so the attempt cap holds afterwards. -/
theorem attemptCap_resetLeaderboard (tie : TieOrder) (s : Store) :
    AttemptCap (resetLeaderboard tie s) := by
  intro u hu v
  simp only [resetLeaderboard, List.mem_map] at hu
  obtain ⟨u0, _, rfl⟩ := hu
  simp [attemptsThisWeek]

/-- Every single operation keeps the attempt cap. -/
theorem attemptCap_step (s : Store) (op : Op) (h : AttemptCap s) : AttemptCap (step s op) := by
  cases op with
  | submit req => exact attemptCap_submit s req h
  | rotate tie => exact attemptCap_resetLeaderboard tie s

/-! ## Facts about the two sort orders -/

instance rankBefore_total : IsTotal User rankBefore :=
  ⟨fun a b => by unfold rankBefore; omega⟩

instance rankBefore_trans : IsTrans User rankBefore :=
  ⟨fun a b c => by unfold rankBefore; omega⟩

instance weekDesc_total : IsTotal Leaderboard weekDesc :=
  ⟨fun a b => by unfold weekDesc; omega⟩

instance weekDesc_trans : IsTrans Leaderboard weekDesc :=
  ⟨fun a b c => by unfold weekDesc; omega⟩

/-- The short-circuit `x || 0` returns `x` itself on an integer. -/
theorem orZero_some (w : Int) : orZero (some w) = w := by
  show (if w = 0 then 0 else w) = w
  split
  · rename_i h
    exact h.symm
  · rfl

/-- With no Leaderboard document the latest week is `0`. -/
theorem latestWeek_nil : latestWeek [] = 0 := rfl

/-- With at least one Leaderboard document the latest week is the week of a document whose
week is the largest. -/
theorem latestWeek_max (lbs : List Leaderboard) (h : lbs ≠ []) :
    ∃ m ∈ lbs, (∀ l ∈ lbs, l.week ≤ m.week) ∧ latestWeek lbs = m.week := by
  have hsorted := List.sorted_insertionSort weekDesc lbs
  have hperm := List.perm_insertionSort weekDesc lbs
  unfold latestWeek
  cases hs : lbs.insertionSort weekDesc with
  | nil =>
    rw [hs] at hperm
    exact absurd hperm.symm.eq_nil h
  | cons m rest =>
    rw [hs] at hsorted hperm
    refine ⟨m, hperm.subset (List.mem_cons_self _ _), fun l hl => ?_, ?_⟩
    · rcases List.mem_cons.1 (hperm.symm.subset hl) with rfl | hl
      · exact le_refl _
      · exact List.rel_of_sorted_cons hsorted l hl
    · simp [orZero_some]

/-! ## Facts about the state right after the weekly job -/

/-- A week that some Problem document carries is found by `findProblem`. -/
theorem findProblem_isSome (problems : List Problem) (w : Int) (p : Problem)
    (hp : p ∈ problems) (hw : p.week = w) : ∃ q, findProblem problems w = some q := by
  cases hf : findProblem problems w with
  | some q => exact ⟨q, rfl⟩
  | none =>
    unfold findProblem at hf
    rw [List.find?_eq_none] at hf
    exact absurd (by simpa using hw) (hf p hp)

/-- Right after the weekly job no document that `findUser` can return holds a response. -/
theorem attemptsThisWeek_after_reset (tie : TieOrder) (s : Store) (n e : String) (w : Int) :
    attemptsThisWeek ((findUser (resetLeaderboard tie s).users e).getD (newUser n e)) w = 0 := by
  cases hf : findUser (resetLeaderboard tie s).users e with
  | none => simp [attemptsThisWeek, newUser]
  | some u =>
    have hmem := (findUser_some hf).1
    simp only [resetLeaderboard, List.mem_map] at hmem
    obtain ⟨u0, _, rfl⟩ := hmem
    simp [attemptsThisWeek]

/-! ## Properties of the specification -/

/-- C1. Attempt-cap invariant: from any store in which no user holds more than three responses
for one week (the empty store is such a store), every sequential run of submissions and
rotations ends in a store in which, for every user and every week value, the number of that
user's responses with that week is at most 3. -/
theorem attempt_cap_invariant (s : Store) (ops : List Op) (h : AttemptCap s) :
    ∀ u ∈ (run s ops).users, ∀ w : Int,
      (u.responses.filter (fun r => r.week == w)).length ≤ 3 := by
  have key : AttemptCap (run s ops) := by
    induction ops generalizing s with
    | nil => exact h
    | cons op ops ih => exact ih (step s op) (attemptCap_step s op h)
  exact key

/-- C1 witness: the empty store satisfies the cap, and a run from it that rotates once and then
submits four times for the new week keeps it. -/
theorem attempt_cap_invariant_witness :
    AttemptCap emptyStore ∧
    ∀ u ∈ (run emptyStore
        [Op.rotate collectionOrder,
         Op.submit ⟨some "Ann", some "ann@x.io", some "a", some 1⟩,
         Op.submit ⟨some "Ann", some "ann@x.io", some "b", some 1⟩,
         Op.submit ⟨some "Ann", some "ann@x.io", some "c", some 1⟩,
         Op.submit ⟨some "Ann", some "ann@x.io", some "d", some 1⟩]).users, ∀ w : Int,
      (u.responses.filter (fun r => r.week == w)).length ≤ 3 :=
  ⟨fun u hu => by simp [emptyStore] at hu,
   attempt_cap_invariant emptyStore _ (fun u hu => by simp [emptyStore] at hu)⟩

/-- C2. For a submission with all four fields present (non-empty name, email and answer and a
non-zero week, so that it passes validation): it is rejected with status 400 and the message
"Maximum attempts reached for this week" if and only if the user found by email already has at
least 3 responses whose week equals the submitted week; and when it is rejected this way the
whole store is unchanged. -/
theorem attempt_limit_iff (s : Store) (n e a : String) (w : Int)
    (hn : n ≠ "") (he : e ≠ "") (ha : a ≠ "") (hw : w ≠ 0) :
    ((submit s ⟨some n, some e, some a, some w⟩).2 =
        ⟨400, "Maximum attempts reached for this week", none⟩ ↔
      ∃ u, findUser s.users e = some u ∧
        3 ≤ (u.responses.filter (fun r => r.week == w)).length) ∧
    ((submit s ⟨some n, some e, some a, some w⟩).2 =
        ⟨400, "Maximum attempts reached for this week", none⟩ →
      (submit s ⟨some n, some e, some a, some w⟩).1 = s) := by
  rw [submit_of_valid s n e a w hn he ha hw]
  have hcount : attemptsThisWeek ((findUser s.users e).getD (newUser n e)) w ≥ 3 ↔
      ∃ u, findUser s.users e = some u ∧
        3 ≤ (u.responses.filter (fun r => r.week == w)).length := by
    cases hf : findUser s.users e with
    | none => simp [attemptsThisWeek, newUser]
    | some u => simp [attemptsThisWeek]
  split
  · rename_i hge
    exact ⟨⟨fun _ => hcount.1 hge, fun _ => rfl⟩, fun _ => rfl⟩
  · rename_i hlt
    split
    · refine ⟨⟨fun h => ?_, fun h => absurd (hcount.2 h) hlt⟩, fun _ => rfl⟩
      simp [problemNotFound] at h
    · refine ⟨⟨fun h => ?_, fun h => absurd (hcount.2 h) hlt⟩, fun h => ?_⟩ <;>
        simp [submitted] at h

/-- C2 witness: Ann, who holds three week-1 responses (and one for week 2), is rejected for
week 1 and the store stays as it was. -/
theorem attempt_limit_iff_witness :
    ("Ann" ≠ "" ∧ "ann@x.io" ≠ "" ∧ "44" ≠ "" ∧ (1 : Int) ≠ 0) ∧
    (submit cappedStore ⟨some "Ann", some "ann@x.io", some "44", some 1⟩).2 =
      ⟨400, "Maximum attempts reached for this week", none⟩ ∧
    (submit cappedStore ⟨some "Ann", some "ann@x.io", some "44", some 1⟩).1 = cappedStore :=
  have h := attempt_limit_iff cappedStore "Ann" "ann@x.io" "44" 1
    (by decide) (by decide) (by decide) (by decide)
  have hr := h.1.2 ⟨_, by rfl, by decide⟩
  ⟨by decide, hr, h.2 hr⟩

/-- C3. For a valid submission below the attempt limit whose week has no Problem record: the reply
is status 500 "Problem not found for this week" and the store is exactly unchanged; in
particular an unseen email stays unseen (no User record is created). -/
theorem problem_not_found (s : Store) (n e a : String) (w : Int)
    (hn : n ≠ "") (he : e ≠ "") (ha : a ≠ "") (hw : w ≠ 0)
    (hlimit : ∀ u, findUser s.users e = some u →
      (u.responses.filter (fun r => r.week == w)).length < 3)
    (hp : ∀ p ∈ s.problems, p.week ≠ w) :
    submit s ⟨some n, some e, some a, some w⟩ =
        (s, ⟨500, "Problem not found for this week", none⟩) ∧
    (findUser s.users e = none →
      findUser (submit s ⟨some n, some e, some a, some w⟩).1.users e = none) := by
  have hsub : submit s ⟨some n, some e, some a, some w⟩ = (s, problemNotFound) := by
    rw [submit_of_valid s n e a w hn he ha hw]
    have hlt : ¬ attemptsThisWeek ((findUser s.users e).getD (newUser n e)) w ≥ 3 := by
      cases hf : findUser s.users e with
      | none => simp [attemptsThisWeek, newUser]
      | some u =>
        have := hlimit u hf
        simp only [Option.getD_some, attemptsThisWeek]
        omega
    have hnone : findProblem s.problems w = none := by
      unfold findProblem
      rw [List.find?_eq_none]
      intro p hmem
      simpa using hp p hmem
    simp only [hlt, if_false, hnone]
  refine ⟨hsub, fun h => ?_⟩
  rw [hsub]
  exact h

/-- C3 witness: Ann submits for week 9, which has no problem, to a store that has never seen
her. -/
theorem problem_not_found_witness :
    ("Ann" ≠ "" ∧ "ann@x.io" ≠ "" ∧ "42" ≠ "" ∧ (9 : Int) ≠ 0) ∧
    submit weekOneStore ⟨some "Ann", some "ann@x.io", some "42", some 9⟩ =
        (weekOneStore, ⟨500, "Problem not found for this week", none⟩) ∧
    (findUser weekOneStore.users "ann@x.io" = none →
      findUser (submit weekOneStore
        ⟨some "Ann", some "ann@x.io", some "42", some 9⟩).1.users "ann@x.io" = none) :=
  ⟨by decide,
   problem_not_found weekOneStore "Ann" "ann@x.io" "42" 9
    (by decide) (by decide) (by decide) (by decide)
    (fun u hu => by simp [weekOneStore, findUser] at hu)
    (by decide)⟩

/-- C4, as stated, fails: Ann's lifetime `attempts` is `2 ^ 53`; her valid, correct week-1
submission is accepted, yet afterwards `attempts` is still `2 ^ 53` and not the old value plus 1,
because `attempts++` is an addition of doubles. -/
theorem submit_success_lost_increment :
    (submit saturatedStore ⟨some "Ann", some "ann@x.io", some "42", some 1⟩).2 =
      ⟨200, "Response submitted", some true⟩ ∧
    (findUser saturatedStore.users "ann@x.io").map (fun u => u.attempts) =
      some 9007199254740992 ∧
    (findUser (submit saturatedStore
        ⟨some "Ann", some "ann@x.io", some "42", some 1⟩).1.users "ann@x.io").map
      (fun u => u.attempts) = some 9007199254740992 ∧
    ¬ ((findUser (submit saturatedStore
        ⟨some "Ann", some "ann@x.io", some "42", some 1⟩).1.users "ann@x.io").map
      (fun u => u.attempts) = some (9007199254740992 + 1)) := by
  decide

/-- C4, amended. Success postcondition of submit: for a valid submission below the attempt limit
whose week has the Problem `p`, by a user whose `attempts` and `problemsSolved` are below
`2 ^ 53` (or by an unseen email), the reply is status 200 with `correct` being exact string
equality of the answer and `p.correctAnswer`, and afterwards the user found by the submitted
email has the old responses with `{week, answer, correct}` appended at the end, the old
`attempts` plus 1, and the old `problemsSolved` plus 1 if correct and unchanged otherwise; for
an unseen email the old values are 0 and the empty list, under the submitted name and email. -/
theorem submit_success (s : Store) (n e a : String) (w : Int) (p : Problem)
    (hn : n ≠ "") (he : e ≠ "") (ha : a ≠ "") (hw : w ≠ 0)
    (hlimit : ∀ u, findUser s.users e = some u →
      (u.responses.filter (fun r => r.week == w)).length < 3)
    (hsafe : ∀ u, findUser s.users e = some u →
      u.attempts < 2 ^ 53 ∧ u.problemsSolved < 2 ^ 53)
    (hp : findProblem s.problems w = some p) :
    (submit s ⟨some n, some e, some a, some w⟩).2 =
        ⟨200, "Response submitted", some (decide (a = p.correctAnswer))⟩ ∧
    findUser (submit s ⟨some n, some e, some a, some w⟩).1.users e =
      some
        { name := ((findUser s.users e).getD ⟨n, e, 0, 0, []⟩).name
          email := ((findUser s.users e).getD ⟨n, e, 0, 0, []⟩).email
          attempts := ((findUser s.users e).getD ⟨n, e, 0, 0, []⟩).attempts + 1
          problemsSolved :=
            if a = p.correctAnswer
            then ((findUser s.users e).getD ⟨n, e, 0, 0, []⟩).problemsSolved + 1
            else ((findUser s.users e).getD ⟨n, e, 0, 0, []⟩).problemsSolved
          responses := ((findUser s.users e).getD ⟨n, e, 0, 0, []⟩).responses ++
            [{ week := w, answer := a, correct := decide (a = p.correctAnswer) }] } := by
  rw [submit_of_valid s n e a w hn he ha hw]
  have hlt : ¬ attemptsThisWeek ((findUser s.users e).getD (newUser n e)) w ≥ 3 := by
    cases hf : findUser s.users e with
    | none => simp [attemptsThisWeek, newUser]
    | some u =>
      have := hlimit u hf
      simp only [Option.getD_some, attemptsThisWeek]
      omega
  have hold : ((findUser s.users e).getD (newUser n e)).attempts < 2 ^ 53 ∧
      ((findUser s.users e).getD (newUser n e)).problemsSolved < 2 ^ 53 := by
    cases hf : findUser s.users e with
    | none => simp [newUser]
    | some u => simpa using hsafe u hf
  simp only [hlt, if_false, hp]
  refine ⟨rfl, ?_⟩
  have hmail : (scored ((findUser s.users e).getD (newUser n e)) w a
      (decide (a = p.correctAnswer))).email = e := by
    cases hf : findUser s.users e with
    | none => simp [scored, newUser]
    | some u => simpa [scored] using (findUser_some hf).2
  rw [findUser_saveUser _ _ _ hmail]
  simp only [scored, jsInc_of_lt _ hold.1, jsInc_of_lt _ hold.2]
  simp [newUser]

/-- C4 witness (scenarios A and B): a fresh user submitting the correct week-1 answer gets
`correct = true` with `problemsSolved = 1` and `attempts = 1`; the following wrong answer gets
`correct = false` with `attempts = 2` and `problemsSolved` still 1. -/
theorem submit_success_witness :
    ((submit weekOneStore ⟨some "Ann", some "ann@x.io", some "42", some 1⟩).2 =
        ⟨200, "Response submitted", some true⟩ ∧
      findUser (submit weekOneStore
          ⟨some "Ann", some "ann@x.io", some "42", some 1⟩).1.users "ann@x.io" =
        some ⟨"Ann", "ann@x.io", 1, 1, [⟨1, "42", true⟩]⟩) ∧
    ((submit (submit weekOneStore ⟨some "Ann", some "ann@x.io", some "42", some 1⟩).1
        ⟨some "Ann", some "ann@x.io", some "41", some 1⟩).2 =
        ⟨200, "Response submitted", some false⟩ ∧
      findUser (submit (submit weekOneStore ⟨some "Ann", some "ann@x.io", some "42", some 1⟩).1
          ⟨some "Ann", some "ann@x.io", some "41", some 1⟩).1.users "ann@x.io" =
        some ⟨"Ann", "ann@x.io", 2, 1, [⟨1, "42", true⟩, ⟨1, "41", false⟩]⟩) :=
  ⟨submit_success weekOneStore "Ann" "ann@x.io" "42" 1 ⟨1, "42"⟩
      (by decide) (by decide) (by decide) (by decide)
      (fun u hu => by simp [weekOneStore, findUser] at hu)
      (fun u hu => by simp [weekOneStore, findUser] at hu) (by rfl),
   submit_success (submit weekOneStore ⟨some "Ann", some "ann@x.io", some "42", some 1⟩).1
      "Ann" "ann@x.io" "41" 1 ⟨1, "42"⟩
      (by decide) (by decide) (by decide) (by decide)
      (fun u hu => by
        have h1 : findUser (submit weekOneStore
            ⟨some "Ann", some "ann@x.io", some "42", some 1⟩).1.users "ann@x.io" =
            some ⟨"Ann", "ann@x.io", 1, 1, [⟨1, "42", true⟩]⟩ := by decide
        rw [h1] at hu
        cases hu
        decide)
      (fun u hu => by
        have h1 : findUser (submit weekOneStore
            ⟨some "Ann", some "ann@x.io", some "42", some 1⟩).1.users "ann@x.io" =
            some ⟨"Ann", "ann@x.io", 1, 1, [⟨1, "42", true⟩]⟩ := by decide
        rw [h1] at hu
        cases hu
        exact ⟨by norm_num, by norm_num⟩)
      (by rfl)⟩

/-- C5. A submission in which name, email or answer is missing or the empty string, or week is
missing, is answered with status 400 "Missing required fields" whatever the store holds, and the
store is exactly unchanged. -/
theorem validation_failure (s : Store) (req : Body)
    (h : req.name = none ∨ req.name = some "" ∨ req.email = none ∨ req.email = some "" ∨
      req.answer = none ∨ req.answer = some "" ∨ req.week = none) :
    submit s req = (s, ⟨400, "Missing required fields", none⟩) := by
  apply submit_of_invalid
  rcases h with h | h | h | h | h | h | h <;> simp [h, notStr, notNum]

/-- C5 witness: an empty answer is rejected even though the week-1 problem exists. -/
theorem validation_failure_witness :
    submit weekOneStore ⟨some "Ann", some "ann@x.io", some "", some 1⟩ =
      (weekOneStore, ⟨400, "Missing required fields", none⟩) :=
  validation_failure weekOneStore ⟨some "Ann", some "ann@x.io", some "", some 1⟩
    (Or.inr (Or.inr (Or.inr (Or.inr (Or.inr (Or.inl rfl))))))

/-- C6. The leaderboard has length min(10, number of users); its entries are the
`{name, problemsSolved, attempts}` projections of distinct users (the listed users `kept`,
together with the users left out `rest`, are a rearrangement of the collection); any entry at an
earlier position has more problems solved than a later one, or as many with no more attempts;
and every user left out ranks no higher under this order than each listed entry, the last one
included.  This holds however the engine orders ties. -/
theorem leaderboard_ranked (tie : TieOrder) (s : Store) :
    ∃ kept rest : List User,
      leaderboard tie s = kept.map project ∧
      (kept ++ rest).Perm s.users ∧
      (leaderboard tie s).length = min 10 s.users.length ∧
      (leaderboard tie s).Pairwise (fun x y =>
        y.problemsSolved < x.problemsSolved ∨
          (x.problemsSolved = y.problemsSolved ∧ x.attempts ≤ y.attempts)) ∧
      ∀ u ∈ rest, ∀ k ∈ kept,
        u.problemsSolved < k.problemsSolved ∨
          (k.problemsSolved = u.problemsSolved ∧ k.attempts ≤ u.attempts) := by
  have hsorted : (sortedUsers tie s.users).Sorted rankBefore :=
    List.sorted_insertionSort rankBefore _
  have hperm : (sortedUsers tie s.users).Perm s.users :=
    (List.perm_insertionSort rankBefore _).trans (tie.perm s.users)
  refine ⟨(sortedUsers tie s.users).take 10, (sortedUsers tie s.users).drop 10, rfl, ?_, ?_, ?_, ?_⟩
  · rw [List.take_append_drop]
    exact hperm
  · simp [leaderboard, hperm.length_eq]
  · unfold leaderboard
    rw [List.pairwise_map]
    exact List.Pairwise.sublist (List.take_sublist _ _) hsorted
  · intro u hu k hk
    exact hsorted.rel_of_mem_take_of_mem_drop hk hu

/-- C6 witness: in the week-5 store the four users are listed with Bob (2 solved) first, then
Cy before Ann (both 1 solved, 7 against 9 attempts), then Di. -/
theorem leaderboard_ranked_witness :
    leaderboard collectionOrder weekFiveStore =
      [⟨"Bob", 2, 4⟩, ⟨"Cy", 1, 7⟩, ⟨"Ann", 1, 9⟩, ⟨"Di", 0, 2⟩] ∧
    ∃ kept rest : List User,
      leaderboard collectionOrder weekFiveStore = kept.map project ∧
      (kept ++ rest).Perm weekFiveStore.users ∧
      (leaderboard collectionOrder weekFiveStore).length = min 10 weekFiveStore.users.length ∧
      (leaderboard collectionOrder weekFiveStore).Pairwise (fun x y =>
        y.problemsSolved < x.problemsSolved ∨
          (x.problemsSolved = y.problemsSolved ∧ x.attempts ≤ y.attempts)) ∧
      ∀ u ∈ rest, ∀ k ∈ kept,
        u.problemsSolved < k.problemsSolved ∨
          (k.problemsSolved = u.problemsSolved ∧ k.attempts ≤ u.attempts) :=
  ⟨by decide, leaderboard_ranked collectionOrder weekFiveStore⟩

/-- C7, as stated, fails: the latest Leaderboard week is `2 ^ 53`; the job computes
`latestWeek + 1` in doubles, which is `2 ^ 53` again, so the appended record has week `2 ^ 53`
and not the maximum plus 1. -/
theorem rotate_new_week_lost_increment :
    weekMaxStore.leaderboards.map (fun l => l.week) = [9007199254740992] ∧
    (resetLeaderboard collectionOrder weekMaxStore).leaderboards.map (fun l => l.week) =
      [9007199254740992, 9007199254740992] ∧
    ¬ ((resetLeaderboard collectionOrder weekMaxStore).leaderboards.map (fun l => l.week) =
      [9007199254740992, 9007199254740992 + 1]) := by
  decide

/-- C7, amended. When every stored Leaderboard week is a safe integer (strictly between
`-(2 ^ 53)` and `2 ^ 53`), the weekly job appends exactly one Leaderboard record; its week is 1
when no Leaderboard record existed before the call, and otherwise the maximum week among the
records existing before the call plus 1. -/
theorem rotate_new_week (tie : TieOrder) (s : Store)
    (hsafe : ∀ l ∈ s.leaderboards, -(2 ^ 53) < l.week ∧ l.week < 2 ^ 53) :
    ∃ lb : Leaderboard,
      (resetLeaderboard tie s).leaderboards = s.leaderboards ++ [lb] ∧
      (s.leaderboards = [] → lb.week = 1) ∧
      (s.leaderboards ≠ [] →
        ∃ m ∈ s.leaderboards, (∀ l ∈ s.leaderboards, l.week ≤ m.week) ∧ lb.week = m.week + 1) := by
  refine ⟨⟨jsAddOne (latestWeek s.leaderboards), ((sortedUsers tie s.users).take 3).map project⟩,
    rfl, fun h => ?_, fun h => ?_⟩
  · simp only [h, latestWeek_nil]
    decide
  · obtain ⟨m, hm, hmax, hlw⟩ := latestWeek_max s.leaderboards h
    refine ⟨m, hm, hmax, ?_⟩
    have hm2 := hsafe m hm
    show jsAddOne (latestWeek s.leaderboards) = m.week + 1
    rw [hlw]
    exact jsAddOne_of_safe m.week (by omega) hm2.2

/-- C7 witness (scenario E): the Leaderboard history holds weeks 3, 5 and 4, so the latest week
is 5 and the appended record has week 6. -/
theorem rotate_new_week_witness :
    (resetLeaderboard collectionOrder weekFiveStore).leaderboards =
      weekFiveStore.leaderboards ++
        [⟨6, [⟨"Bob", 2, 4⟩, ⟨"Cy", 1, 7⟩, ⟨"Ann", 1, 9⟩]⟩] ∧
    ∃ lb : Leaderboard,
      (resetLeaderboard collectionOrder weekFiveStore).leaderboards =
        weekFiveStore.leaderboards ++ [lb] ∧
      (weekFiveStore.leaderboards = [] → lb.week = 1) ∧
      (weekFiveStore.leaderboards ≠ [] →
        ∃ m ∈ weekFiveStore.leaderboards,
          (∀ l ∈ weekFiveStore.leaderboards, l.week ≤ m.week) ∧ lb.week = m.week + 1) :=
  ⟨by decide, rotate_new_week collectionOrder weekFiveStore (by decide)⟩

/-! ### Two queries over the same collection -/

instance keyBefore_antisymm : IsAntisymm (Nat × Nat) keyBefore :=
  ⟨fun a b hab hba => by
    unfold keyBefore at hab hba
    exact Prod.ext (by omega) (by omega)⟩

/-- The query result is a rearrangement of the collection. -/
theorem sortedUsers_perm (tie : TieOrder) (users : List User) :
    (sortedUsers tie users).Perm users :=
  (List.perm_insertionSort rankBefore _).trans (tie.perm users)

/-- The query result is sorted by the two keys. -/
theorem sortedUsers_sorted (tie : TieOrder) (users : List User) :
    (sortedUsers tie users).Sorted rankBefore :=
  List.sorted_insertionSort rankBefore _

/-- However ties are ordered, the sequence of key pairs of the query result is the same. -/
theorem sortedUsers_keys (tie tie2 : TieOrder) (users : List User) :
    (sortedUsers tie users).map sortKey = (sortedUsers tie2 users).map sortKey := by
  have hs : ∀ t : TieOrder, ((sortedUsers t users).map sortKey).Sorted keyBefore := by
    intro t
    have h := sortedUsers_sorted t users
    unfold List.Sorted at h ⊢
    rw [List.pairwise_map]
    exact h
  have hp : ((sortedUsers tie users).map sortKey).Perm ((sortedUsers tie2 users).map sortKey) :=
    ((sortedUsers_perm tie users).trans (sortedUsers_perm tie2 users).symm).map sortKey
  exact List.eq_of_perm_of_sorted hp (hs tie) (hs tie2)

/-- When no two users tie on the keys, the query result does not depend on the tie order. -/
theorem sortedUsers_eq_of_nodup (tie tie2 : TieOrder) (users : List User)
    (h : (users.map sortKey).Nodup) : sortedUsers tie users = sortedUsers tie2 users := by
  have hinj := List.inj_on_of_nodup_map h
  refine List.Perm.eq_of_sorted (fun a b ha hb hab hba => ?_)
    (sortedUsers_sorted tie users) (sortedUsers_sorted tie2 users)
    ((sortedUsers_perm tie users).trans (sortedUsers_perm tie2 users).symm)
  apply hinj ((sortedUsers_perm tie users).subset ha) ((sortedUsers_perm tie2 users).subset hb)
  unfold rankBefore at hab hba
  exact Prod.ext (by show a.problemsSolved = b.problemsSolved; omega)
    (by show a.attempts = b.attempts; omega)

/-- The key pairs shown by the leaderboard are the first ten key pairs of the sorted users. -/
theorem leaderboard_keys (tie : TieOrder) (s : Store) :
    (leaderboard tie s).map playerKey = ((sortedUsers tie s.users).map sortKey).take 10 := by
  simp only [leaderboard, List.map_take, List.map_map]
  rfl

/-- C8, as stated, fails: the four users of `tiedStore` tie on both keys; when the job's top-3
query meets them in collection order and the leaderboard query in reverse order, the snapshot
is Ann, Bob, Cy while the first three leaderboard entries are Di, Cy, Bob. -/
theorem rotate_snapshot_tie_mismatch :
    (resetLeaderboard collectionOrder tiedStore).leaderboards =
      [⟨1, [⟨"Ann", 1, 2⟩, ⟨"Bob", 1, 2⟩, ⟨"Cy", 1, 2⟩]⟩] ∧
    (leaderboard reverseOrder tiedStore).take 3 = [⟨"Di", 1, 2⟩, ⟨"Cy", 1, 2⟩, ⟨"Bob", 1, 2⟩] ∧
    ¬ ((resetLeaderboard collectionOrder tiedStore).leaderboards.map (fun l => l.topPlayers) =
      [(leaderboard reverseOrder tiedStore).take 3]) := by
  decide

/-- C8, amended. The Leaderboard record created by the weekly job on a store `s` carries as
`topPlayers` the name, `problemsSolved` and `attempts`, as they are in `s` before the reset, of
the first 3 users (all of them if fewer) in leaderboard order.  It equals the first 3 entries of
the list the leaderboard query returns in `s` when both queries order ties alike, and also when
no two users tie on `(problemsSolved, attempts)`; against any list the leaderboard query can
return in `s` it shows the same `problemsSolved` and `attempts` at each of the first 3
positions. -/
theorem rotate_snapshot (tie tie2 : TieOrder) (s : Store) :
    ∃ lb : Leaderboard,
      (resetLeaderboard tie s).leaderboards = s.leaderboards ++ [lb] ∧
      lb.topPlayers = ((sortedUsers tie s.users).take 3).map
        (fun u => { name := u.name, problemsSolved := u.problemsSolved,
                    attempts := u.attempts }) ∧
      (∀ pl ∈ lb.topPlayers, ∃ u ∈ s.users,
        pl.name = u.name ∧ pl.problemsSolved = u.problemsSolved ∧ pl.attempts = u.attempts) ∧
      lb.topPlayers.length = min 3 s.users.length ∧
      lb.topPlayers = (leaderboard tie s).take 3 ∧
      lb.topPlayers.map playerKey = ((leaderboard tie2 s).take 3).map playerKey ∧
      ((s.users.map sortKey).Nodup → lb.topPlayers = (leaderboard tie2 s).take 3) := by
  have hsame : ∀ t : TieOrder,
      ((sortedUsers t s.users).take 3).map project = (leaderboard t s).take 3 := by
    intro t
    simp only [leaderboard, List.map_take, List.take_take]
    rfl
  refine ⟨⟨jsAddOne (latestWeek s.leaderboards), ((sortedUsers tie s.users).take 3).map project⟩,
    rfl, rfl, ?_, ?_, hsame tie, ?_, fun hnd => ?_⟩
  · intro pl hpl
    obtain ⟨u, hu, rfl⟩ := List.mem_map.1 hpl
    exact ⟨u, (sortedUsers_perm tie s.users).subset (List.mem_of_mem_take hu), rfl, rfl, rfl⟩
  · simp [(sortedUsers_perm tie s.users).length_eq]
  · show (((sortedUsers tie s.users).take 3).map project).map playerKey = _
    rw [hsame tie, List.map_take, List.map_take, leaderboard_keys, leaderboard_keys,
      sortedUsers_keys tie tie2]
  · show ((sortedUsers tie s.users).take 3).map project = _
    rw [sortedUsers_eq_of_nodup tie tie2 s.users hnd]
    exact hsame tie2

/-- C8 witness: in the week-5 store, where no two users tie, the snapshot is Bob (2 solved, 4
attempts), Cy (1, 7), Ann (1, 9) with their scores from before the reset; it is the first three
entries of the leaderboard under another tie order, while the leaderboard after the reset shows
only zero scores. -/
theorem rotate_snapshot_witness :
    (weekFiveStore.users.map sortKey).Nodup ∧
    (resetLeaderboard collectionOrder weekFiveStore).leaderboards.map (fun l => l.topPlayers) =
      [[], [⟨"Bob", 3, 3⟩], [], [⟨"Bob", 2, 4⟩, ⟨"Cy", 1, 7⟩, ⟨"Ann", 1, 9⟩]] ∧
    (leaderboard reverseOrder weekFiveStore).take 3 =
      [⟨"Bob", 2, 4⟩, ⟨"Cy", 1, 7⟩, ⟨"Ann", 1, 9⟩] ∧
    leaderboard reverseOrder (resetLeaderboard collectionOrder weekFiveStore) =
      [⟨"Di", 0, 2⟩, ⟨"Bob", 0, 4⟩, ⟨"Cy", 0, 7⟩, ⟨"Ann", 0, 9⟩] ∧
    ∃ lb : Leaderboard,
      (resetLeaderboard collectionOrder weekFiveStore).leaderboards =
        weekFiveStore.leaderboards ++ [lb] ∧
      lb.topPlayers = (leaderboard reverseOrder weekFiveStore).take 3 :=
  ⟨by decide, by decide, by decide, by decide,
   (rotate_snapshot collectionOrder reverseOrder weekFiveStore).imp
     (fun _ h => ⟨h.1, h.2.2.2.2.2.2 (by decide)⟩)⟩

/-- C9. After the weekly job the collection has as many users as before, and the user at each
position has `problemsSolved = 0` and no responses while its `attempts`, `name` and `email`
are those of the user at that position before. -/
theorem rotate_resets_users (tie : TieOrder) (s : Store) :
    (resetLeaderboard tie s).users.length = s.users.length ∧
    ∀ (i : Nat) (u : User), s.users[i]? = some u →
      ∃ v, (resetLeaderboard tie s).users[i]? = some v ∧
        v.problemsSolved = 0 ∧ v.responses = [] ∧
        v.attempts = u.attempts ∧ v.name = u.name ∧ v.email = u.email := by
  constructor
  · simp [resetLeaderboard]
  · intro i u hu
    refine ⟨{ u with problemsSolved := 0, responses := [] }, ?_, rfl, rfl, rfl, rfl, rfl⟩
    simp [resetLeaderboard, hu]

/-- C9 witness: in the week-5 store Bob, at position 1 with 2 solved and 2 responses, comes out
with the same 4 attempts, 0 solved and no responses. -/
theorem rotate_resets_users_witness :
    weekFiveStore.users[1]? = some ⟨"Bob", "bob@x.io", 4, 2, [⟨5, "x", true⟩, ⟨5, "x", true⟩]⟩ ∧
    (resetLeaderboard collectionOrder weekFiveStore).users[1]? =
      some ⟨"Bob", "bob@x.io", 4, 0, []⟩ ∧
    ∃ v, (resetLeaderboard collectionOrder weekFiveStore).users[1]? = some v ∧
      v.problemsSolved = 0 ∧ v.responses = [] ∧
      v.attempts = 4 ∧ v.name = "Bob" ∧ v.email = "bob@x.io" :=
  ⟨by decide, by decide,
   (rotate_resets_users collectionOrder weekFiveStore).2 1
     ⟨"Bob", "bob@x.io", 4, 2, [⟨5, "x", true⟩, ⟨5, "x", true⟩]⟩ (by decide)⟩

/-- C10. The weekly job appends one Problem record; its week is the week of the Leaderboard
record appended by the same call and its answer is the placeholder "NewAnswerHere"; and in the
store right after the job no submission for that week is answered with the problem-not-found
failure (status 500): a valid one is accepted with status 200. -/
theorem rotate_new_problem (tie : TieOrder) (s : Store) :
    ∃ (lb : Leaderboard) (p : Problem),
      (resetLeaderboard tie s).leaderboards = s.leaderboards ++ [lb] ∧
      (resetLeaderboard tie s).problems = s.problems ++ [p] ∧
      p.week = lb.week ∧ p.correctAnswer = "NewAnswerHere" ∧
      (∀ req : Body, req.week = some lb.week →
        (submit (resetLeaderboard tie s) req).2 ≠ ⟨500, "Problem not found for this week", none⟩) ∧
      (∀ n e a : String, n ≠ "" → e ≠ "" → a ≠ "" → lb.week ≠ 0 →
        (submit (resetLeaderboard tie s)
          ⟨some n, some e, some a, some lb.week⟩).2.status = 200) := by
  have hfound : ∃ q, findProblem (resetLeaderboard tie s).problems
      (jsAddOne (latestWeek s.leaderboards)) = some q :=
    findProblem_isSome _ _ ⟨jsAddOne (latestWeek s.leaderboards), "NewAnswerHere"⟩
      (by simp [resetLeaderboard]) rfl
  have hok : ∀ n e a : String, n ≠ "" → e ≠ "" → a ≠ "" → jsAddOne (latestWeek s.leaderboards) ≠ 0 →
      ∃ c, (submit (resetLeaderboard tie s)
        ⟨some n, some e, some a, some (jsAddOne (latestWeek s.leaderboards))⟩).2 = submitted c := by
    intro n e a hn he ha hw
    obtain ⟨q, hq⟩ := hfound
    rw [submit_of_valid _ n e a _ hn he ha hw]
    simp only [attemptsThisWeek_after_reset, hq]
    exact ⟨_, rfl⟩
  refine ⟨⟨jsAddOne (latestWeek s.leaderboards), ((sortedUsers tie s.users).take 3).map project⟩,
    ⟨jsAddOne (latestWeek s.leaderboards), "NewAnswerHere"⟩, rfl, rfl, rfl, rfl, ?_, ?_⟩
  · intro req hweek
    by_cases hg :
        (notStr req.name || notStr req.email || notStr req.answer || notNum req.week) = true
    · rw [submit_of_invalid _ req hg]
      simp [missingFields]
    · obtain ⟨n, e, a, w, rfl, hn, he, ha, hw⟩ := (valid_iff req).1 (by simpa using hg)
      simp only [Option.some.injEq] at hweek
      subst hweek
      obtain ⟨c, hc⟩ := hok n e a hn he ha hw
      rw [hc]
      simp [submitted]
  · intro n e a hn he ha hw
    obtain ⟨c, hc⟩ := hok n e a hn he ha hw
    rw [hc]
    rfl

/-- C10 witness: after the job on the week-5 store the Problem for week 6 exists with the
placeholder answer, and Ann's submission for week 6 is accepted. -/
theorem rotate_new_problem_witness :
    (resetLeaderboard collectionOrder weekFiveStore).problems =
      weekFiveStore.problems ++ [⟨6, "NewAnswerHere"⟩] ∧
    submit (resetLeaderboard collectionOrder weekFiveStore)
        ⟨some "Ann", some "ann@x.io", some "x", some 6⟩ =
      (⟨[⟨"Ann", "ann@x.io", 10, 0, [⟨6, "x", false⟩]⟩, ⟨"Bob", "bob@x.io", 4, 0, []⟩,
          ⟨"Cy", "cy@x.io", 7, 0, []⟩, ⟨"Di", "di@x.io", 2, 0, []⟩],
        (resetLeaderboard collectionOrder weekFiveStore).leaderboards,
        (resetLeaderboard collectionOrder weekFiveStore).problems⟩,
       ⟨200, "Response submitted", some false⟩) ∧
    ∃ (lb : Leaderboard) (p : Problem),
      (resetLeaderboard collectionOrder weekFiveStore).leaderboards =
        weekFiveStore.leaderboards ++ [lb] ∧
      (resetLeaderboard collectionOrder weekFiveStore).problems = weekFiveStore.problems ++ [p] ∧
      p.week = lb.week ∧ p.correctAnswer = "NewAnswerHere" ∧
      (∀ req : Body, req.week = some lb.week →
        (submit (resetLeaderboard collectionOrder weekFiveStore) req).2 ≠
          ⟨500, "Problem not found for this week", none⟩) ∧
      (∀ n e a : String, n ≠ "" → e ≠ "" → a ≠ "" → lb.week ≠ 0 →
        (submit (resetLeaderboard collectionOrder weekFiveStore)
          ⟨some n, some e, some a, some lb.week⟩).2.status = 200) :=
  ⟨by decide, by decide, rotate_new_problem collectionOrder weekFiveStore⟩

/-! ## Further facts about `saveUser` and the shape of a submission -/

/-- A submission either leaves the store alone and is not answered with status 200, or it is a
valid request below the limit for a week with a problem, and then the store differs only in the
saved user document. -/
theorem submit_cases (s : Store) (req : Body) :
    ((submit s req).1 = s ∧ (submit s req).2.status ≠ 200) ∨
    ∃ (n e a : String) (w : Int) (p : Problem),
      req = ⟨some n, some e, some a, some w⟩ ∧ n ≠ "" ∧ e ≠ "" ∧ a ≠ "" ∧ w ≠ 0 ∧
      attemptsThisWeek ((findUser s.users e).getD (newUser n e)) w < 3 ∧
      findProblem s.problems w = some p ∧
      submit s req =
        (Store.mk
          (saveUser s.users e
            (scored ((findUser s.users e).getD (newUser n e)) w a
              (decide (a = p.correctAnswer))))
          s.leaderboards s.problems,
         submitted (decide (a = p.correctAnswer))) := by
  by_cases hg : (notStr req.name || notStr req.email || notStr req.answer || notNum req.week) = true
  · left
    rw [submit_of_invalid s req hg]
    exact ⟨rfl, by simp [missingFields]⟩
  · obtain ⟨n, e, a, w, rfl, hn, he, ha, hw⟩ := (valid_iff req).1 (by simpa using hg)
    by_cases hlim : attemptsThisWeek ((findUser s.users e).getD (newUser n e)) w ≥ 3
    · left
      have hsub : submit s ⟨some n, some e, some a, some w⟩ = (s, attemptLimit) := by
        rw [submit_of_valid s n e a w hn he ha hw]
        simp only [hlim, if_true]
      rw [hsub]
      exact ⟨rfl, by simp [attemptLimit]⟩
    · cases hp : findProblem s.problems w with
      | none =>
        left
        have hsub : submit s ⟨some n, some e, some a, some w⟩ = (s, problemNotFound) := by
          rw [submit_of_valid s n e a w hn he ha hw]
          simp only [hlim, if_false, hp]
        rw [hsub]
        exact ⟨rfl, by simp [problemNotFound]⟩
      | some p =>
        right
        refine ⟨n, e, a, w, p, rfl, hn, he, ha, hw, by omega, hp, ?_⟩
        rw [submit_of_valid s n e a w hn he ha hw]
        simp only [hlim, if_false, hp]

/-- The scored document keeps the email of the document the handler worked on, which is the
submitted email. -/
theorem scored_email (users : List User) (n e a : String) (w : Int) (c : Bool) :
    (scored ((findUser users e).getD (newUser n e)) w a c).email = e := by
  cases hf : findUser users e with
  | none => simp [scored, newUser]
  | some u => simpa [scored] using (findUser_some hf).2

/-- Position by position, `overwriteFound` keeps a document or replaces the found one. -/
theorem getElem?_overwriteFound (e : String) (doc : User) :
    ∀ (users : List User) (i : Nat) (u : User), users[i]? = some u →
      (overwriteFound e doc users)[i]? = some u ∨
        (findUser users e = some u ∧ (overwriteFound e doc users)[i]? = some doc) := by
  intro users
  induction users with
  | nil => intro i u h; simp at h
  | cons x xs ih =>
    intro i u h
    by_cases hx : (x.email == e) = true
    · simp only [overwriteFound, hx, if_true]
      cases i with
      | zero =>
        right
        simp only [List.getElem?_cons_zero, Option.some.injEq] at h
        subst h
        exact ⟨by simp [findUser, List.find?_cons, hx], by simp⟩
      | succ j =>
        left
        simpa using h
    · have hx2 : (x.email == e) = false := by simpa using hx
      simp only [overwriteFound, hx2, Bool.false_eq_true, if_false]
      cases i with
      | zero => left; simpa using h
      | succ j =>
        simp only [List.getElem?_cons_succ] at h ⊢
        rcases ih j u h with h1 | ⟨h1, h2⟩
        · exact Or.inl h1
        · refine Or.inr ⟨?_, h2⟩
          unfold findUser at h1 ⊢
          simp only [List.find?_cons, hx2]
          exact h1

/-- Position by position, `saveUser` keeps a document or replaces the found one. -/
theorem getElem?_saveUser (users : List User) (e : String) (doc : User) (i : Nat) (u : User)
    (h : users[i]? = some u) :
    (saveUser users e doc)[i]? = some u ∨
      (findUser users e = some u ∧ (saveUser users e doc)[i]? = some doc) := by
  unfold saveUser
  cases hf : findUser users e with
  | some v =>
    simp only
    rcases getElem?_overwriteFound e doc users i u h with h1 | ⟨h1, h2⟩
    · exact Or.inl h1
    · exact Or.inr ⟨by rw [← hf, h1], h2⟩
  | none =>
    simp only
    left
    have hi : i < users.length := by
      rcases Nat.lt_or_ge i users.length with hlt | hge
      · exact hlt
      · rw [List.getElem?_eq_none hge] at h
        cases h
    rw [List.getElem?_append_left hi]
    exact h

/-- Overwriting the found document by one with the same email keeps the list of emails. -/
theorem map_email_overwriteFound (e : String) (doc : User) (hdoc : doc.email = e) :
    ∀ users : List User,
      (overwriteFound e doc users).map (fun u => u.email) = users.map (fun u => u.email) := by
  intro users
  induction users with
  | nil => rfl
  | cons x xs ih =>
    by_cases hx : (x.email == e) = true
    · have hxe : x.email = e := by simpa using hx
      simp [overwriteFound, hx, hdoc, hxe]
    · have hx2 : (x.email == e) = false := by simpa using hx
      simp only [overwriteFound, hx2, Bool.false_eq_true, if_false, List.map_cons, ih]

/-- The emails after `saveUser`: unchanged for a known email, one more at the end otherwise. -/
theorem map_email_saveUser (users : List User) (e : String) (doc : User) (hdoc : doc.email = e) :
    (saveUser users e doc).map (fun u => u.email) =
      users.map (fun u => u.email) ++ (if findUser users e = none then [e] else []) := by
  unfold saveUser
  cases hf : findUser users e with
  | some v => simp [map_email_overwriteFound e doc hdoc]
  | none => simp [hdoc]

/-- The query `findUser` returns nothing exactly when no stored document carries the email. -/
theorem findUser_eq_none {users : List User} {e : String} :
    findUser users e = none ↔ ∀ u ∈ users, u.email ≠ e := by
  unfold findUser
  rw [List.find?_eq_none]
  simp

/-- Saving a document for one email does not change what `findUser` returns for another. -/
theorem findUser_saveUser_ne (users : List User) (e f : String) (doc : User)
    (hdoc : doc.email = f) (hne : e ≠ f) :
    findUser (saveUser users f doc) e = findUser users e := by
  have hd : (doc.email == e) = false := by
    rw [hdoc]
    simpa using fun h : f = e => hne h.symm
  unfold saveUser
  cases hf : findUser users f with
  | none =>
    simp only
    unfold findUser
    rw [List.find?_append]
    simp [List.find?_cons, hd]
  | some v =>
    simp only
    clear hf
    induction users with
    | nil => rfl
    | cons x xs ih =>
      by_cases hx : (x.email == f) = true
      · have hxe : (x.email == e) = false := by
          have : x.email = f := by simpa using hx
          rw [this]
          simpa using fun h : f = e => hne h.symm
        simp [overwriteFound, hx, findUser, List.find?_cons, hd, hxe]
      · have hx2 : (x.email == f) = false := by simpa using hx
        simp only [overwriteFound, hx2, Bool.false_eq_true, if_false]
        unfold findUser at ih ⊢
        simp only [List.find?_cons]
        rw [ih]

/-- Neither handler nor job removes or rewrites a Leaderboard or Problem document. -/
theorem step_appends (s : Store) (op : Op) :
    ∃ (lbs : List Leaderboard) (ps : List Problem),
      (step s op).leaderboards = s.leaderboards ++ lbs ∧
      (step s op).problems = s.problems ++ ps := by
  cases op with
  | rotate tie => exact ⟨_, _, rfl, rfl⟩
  | submit req =>
    refine ⟨[], [], ?_, ?_⟩
    · rcases submit_cases s req with ⟨h, _⟩ | ⟨n, e, a, w, p, -, -, -, -, -, -, -, h⟩ <;>
        simp [step, h]
    · rcases submit_cases s req with ⟨h, _⟩ | ⟨n, e, a, w, p, -, -, -, -, -, -, -, h⟩ <;>
        simp [step, h]

/-- Over a whole run the Leaderboard and Problem collections only grow at the end. -/
theorem run_appends (ops : List Op) :
    ∀ s : Store, ∃ (lbs : List Leaderboard) (ps : List Problem),
      (run s ops).leaderboards = s.leaderboards ++ lbs ∧
      (run s ops).problems = s.problems ++ ps := by
  induction ops with
  | nil => intro s; exact ⟨[], [], by simp [run], by simp [run]⟩
  | cons op ops ih =>
    intro s
    obtain ⟨l1, p1, h1, h2⟩ := step_appends s op
    obtain ⟨l2, p2, h3, h4⟩ := ih (step s op)
    refine ⟨l1 ++ l2, p1 ++ p2, ?_, ?_⟩
    · show (run (step s op) ops).leaderboards = _
      rw [h3, h1, List.append_assoc]
    · show (run (step s op) ops).problems = _
      rw [h4, h2, List.append_assoc]

/-! ## Properties of the specification, continued -/

/-- C11. Stored snapshots and problems are append-only: a submission, accepted or not, leaves
the Leaderboard and Problem collections exactly as they were and leaves in place every user
record whose email is not the submitted one; the weekly job keeps every existing Leaderboard and
Problem record and appends one record to each collection; hence after any run the records that
existed before are still there, unaltered and in the same positions. -/
theorem snapshots_append_only (s : Store) :
    (∀ req : Body,
      (submit s req).1.leaderboards = s.leaderboards ∧
      (submit s req).1.problems = s.problems ∧
      ∀ (i : Nat) (u : User), s.users[i]? = some u → req.email ≠ some u.email →
        (submit s req).1.users[i]? = some u) ∧
    (∀ tie : TieOrder, ∃ (lb : Leaderboard) (p : Problem),
      (resetLeaderboard tie s).leaderboards = s.leaderboards ++ [lb] ∧
      (resetLeaderboard tie s).problems = s.problems ++ [p]) ∧
    (∀ ops : List Op, ∃ (lbs : List Leaderboard) (ps : List Problem),
      (run s ops).leaderboards = s.leaderboards ++ lbs ∧
      (run s ops).problems = s.problems ++ ps) := by
  refine ⟨fun req => ?_, fun tie => ⟨_, _, rfl, rfl⟩, fun ops => run_appends ops s⟩
  rcases submit_cases s req with ⟨h, _⟩ | ⟨n, e, a, w, p, rfl, -, -, -, -, -, -, h⟩
  · rw [h]
    exact ⟨rfl, rfl, fun i u hu _ => hu⟩
  · rw [h]
    refine ⟨rfl, rfl, fun i u hu hne => ?_⟩
    rcases getElem?_saveUser s.users e _ i u hu with h1 | ⟨h1, _⟩
    · exact h1
    · exact absurd (by rw [(findUser_some h1).2]) hne

/-- C11 witness: in the week-5 store Ann's accepted submission leaves Bob's record (position 1)
and the stored week-5 snapshot as they were, and a run of a submission, a rotation and another
submission still has the three old Leaderboard records at the front. -/
theorem snapshots_append_only_witness :
    (submit weekFiveStore ⟨some "Ann", some "ann@x.io", some "x", some 5⟩).2 =
      ⟨200, "Response submitted", some true⟩ ∧
    (submit weekFiveStore ⟨some "Ann", some "ann@x.io", some "x", some 5⟩).1.users[1]? =
      some ⟨"Bob", "bob@x.io", 4, 2, [⟨5, "x", true⟩, ⟨5, "x", true⟩]⟩ ∧
    (submit weekFiveStore ⟨some "Ann", some "ann@x.io", some "x", some 5⟩).1.leaderboards =
      weekFiveStore.leaderboards ∧
    ∃ (lbs : List Leaderboard) (ps : List Problem),
      (run weekFiveStore
        [Op.submit ⟨some "Ann", some "ann@x.io", some "x", some 5⟩, Op.rotate reverseOrder,
         Op.submit ⟨some "Bob", some "bob@x.io", some "y", some 6⟩]).leaderboards =
        weekFiveStore.leaderboards ++ lbs ∧
      (run weekFiveStore
        [Op.submit ⟨some "Ann", some "ann@x.io", some "x", some 5⟩, Op.rotate reverseOrder,
         Op.submit ⟨some "Bob", some "bob@x.io", some "y", some 6⟩]).problems =
        weekFiveStore.problems ++ ps :=
  ⟨by decide,
   ((snapshots_append_only weekFiveStore).1
      ⟨some "Ann", some "ann@x.io", some "x", some 5⟩).2.2 1
      ⟨"Bob", "bob@x.io", 4, 2, [⟨5, "x", true⟩, ⟨5, "x", true⟩]⟩ (by decide) (by decide),
   ((snapshots_append_only weekFiveStore).1
      ⟨some "Ann", some "ann@x.io", some "x", some 5⟩).1,
   (snapshots_append_only weekFiveStore).2.2 _⟩

/-- C12, as stated, fails: Bob's lifetime `attempts` is `2 ^ 53 + 2`; after his accepted
submission it is `2 ^ 53 + 4`, so it grew by 2 and not by exactly 1, because `attempts++` is
an addition of doubles. -/
theorem attempts_grow_by_two :
    (submit saturatedStore ⟨some "Bob", some "bob@x.io", some "41", some 1⟩).2.status = 200 ∧
    saturatedStore.users[1]?.map (fun v => v.attempts) = some 9007199254740994 ∧
    (step saturatedStore
        (Op.submit ⟨some "Bob", some "bob@x.io", some "41", some 1⟩)).users[1]?.map
      (fun v => v.attempts) = some 9007199254740996 ∧
    ¬ ((step saturatedStore
        (Op.submit ⟨some "Bob", some "bob@x.io", some "41", some 1⟩)).users[1]?.map
      (fun v => v.attempts) = some (9007199254740994 + 1)) := by
  decide

/-- C12, amended. Lifetime attempts is monotone: for a user whose `attempts` is below `2 ^ 53`,
after any single operation (a submission, accepted or rejected, or the weekly job) the user at
that position has `attempts` at least as large as before; and where it changed, it grew by
exactly 1 and the operation is a submission under that user's email which was accepted with
status 200. -/
theorem attempts_monotone (s : Store) (op : Op) (i : Nat) (u : User)
    (h : s.users[i]? = some u) (hsafe : u.attempts < 2 ^ 53) :
    ∃ v, (step s op).users[i]? = some v ∧ u.attempts ≤ v.attempts ∧
      (v.attempts ≠ u.attempts →
        v.attempts = u.attempts + 1 ∧
        ∃ req, op = Op.submit req ∧ req.email = some u.email ∧
          (submit s req).2.status = 200) := by
  cases op with
  | rotate tie =>
    refine ⟨{ u with problemsSolved := 0, responses := [] }, ?_, le_refl _, fun hne => ?_⟩
    · simp [step, resetLeaderboard, h]
    · exact absurd rfl hne
  | submit req =>
    rcases submit_cases s req with ⟨hs, _⟩ | ⟨n, e, a, w, p, rfl, -, -, -, -, -, -, hs⟩
    · refine ⟨u, ?_, le_refl _, fun hne => absurd rfl hne⟩
      simp only [step, hs]
      exact h
    · rcases getElem?_saveUser s.users e
          (scored ((findUser s.users e).getD (newUser n e)) w a (decide (a = p.correctAnswer)))
          i u h with h1 | ⟨h1, h2⟩
      · refine ⟨u, ?_, le_refl _, fun hne => absurd rfl hne⟩
        simp only [step, hs]
        exact h1
      · have hinc : (scored ((findUser s.users e).getD (newUser n e)) w a
            (decide (a = p.correctAnswer))).attempts = u.attempts + 1 := by
          simp only [scored, h1, Option.getD_some]
          exact jsInc_of_lt u.attempts hsafe
        refine ⟨scored ((findUser s.users e).getD (newUser n e)) w a
          (decide (a = p.correctAnswer)), ?_, ?_, fun _ => ⟨hinc, _, rfl, ?_, ?_⟩⟩
        · simp only [step, hs]
          exact h2
        · rw [hinc]
          exact Nat.le_succ _
        · simp [(findUser_some h1).2]
        · rw [hs]
          rfl

/-- C12 witness: Ann, at position 0 of the week-5 store with 9 attempts, has 10 after her
accepted submission, while the weekly job leaves her at 9. -/
theorem attempts_monotone_witness :
    (∃ v, (step weekFiveStore
        (Op.submit ⟨some "Ann", some "ann@x.io", some "x", some 5⟩)).users[0]? = some v ∧
      9 ≤ v.attempts ∧
      (v.attempts ≠ 9 →
        v.attempts = 9 + 1 ∧
        ∃ req, Op.submit ⟨some "Ann", some "ann@x.io", some "x", some 5⟩ = Op.submit req ∧
          req.email = some "ann@x.io" ∧ (submit weekFiveStore req).2.status = 200)) ∧
    ((step weekFiveStore
        (Op.submit ⟨some "Ann", some "ann@x.io", some "x", some 5⟩)).users[0]?.map
      (fun v => v.attempts) = some 10) ∧
    ((step weekFiveStore (Op.rotate collectionOrder)).users[0]?.map (fun v => v.attempts) =
      some 9) :=
  ⟨attempts_monotone weekFiveStore (Op.submit ⟨some "Ann", some "ann@x.io", some "x", some 5⟩) 0
      ⟨"Ann", "ann@x.io", 9, 1, [⟨5, "x", true⟩]⟩ (by decide) (by norm_num),
   by decide, by decide⟩

/-! ## Counting scored submissions -/

/-- The number of week-`w` responses held by the user that `findUser` returns for `e`, and `0`
when there is no such user. -/
theorem held_eq (users : List User) (n e : String) (w : Int) :
    ((findUser users e).map (fun u => attemptsThisWeek u w)).getD 0 =
      attemptsThisWeek ((findUser users e).getD (newUser n e)) w := by
  cases findUser users e with
  | none => simp [attemptsThisWeek, newUser]
  | some u => simp

/-- One submission raises the number of held week-`w` responses of `e` by one exactly when it is
a scored submission by `e` for `w`. -/
theorem held_submit (s : Store) (req : Body) (e : String) (w : Int) :
    ((findUser (submit s req).1.users e).map (fun u => attemptsThisWeek u w)).getD 0 =
      ((findUser s.users e).map (fun u => attemptsThisWeek u w)).getD 0 +
        (if accepted s e w (Op.submit req) then 1 else 0) := by
  rcases submit_cases s req with ⟨hs, hst⟩ | ⟨n, f, a, v, p, rfl, -, -, -, -, -, -, hs⟩
  · have hacc : accepted s e w (Op.submit req) = false := by
      simp [accepted, hst]
    rw [hs, hacc]
    simp
  · have hst : (submit s ⟨some n, some f, some a, some v⟩).2.status = 200 := by
      rw [hs]
      rfl
    rw [hs]
    by_cases hfe : f = e
    · subst hfe
      rw [findUser_saveUser _ _ _ (scored_email s.users n f a v _)]
      simp only [Option.map_some', Option.getD_some]
      rw [attemptsThisWeek_scored, held_eq s.users n f w]
      by_cases hvw : v = w
      · subst hvw
        simp [accepted, hst]
      · simp [accepted, hvw]
    · rw [findUser_saveUser_ne _ e f _ (scored_email s.users n f a v _) (fun h => hfe h.symm)]
      have hacc : accepted s e w (Op.submit ⟨some n, some f, some a, some v⟩) = false := by
        simp [accepted, hfe]
      rw [hacc]
      simp

/-- Under the attempt cap, the count since the last rotation never exceeds 3 when it starts
from the number of responses the user holds. -/
theorem acceptedSinceRotate_le (e : String) (w : Int) (ops : List Op) :
    ∀ (s : Store) (sofar : Nat), AttemptCap s →
      sofar = ((findUser s.users e).map (fun u => attemptsThisWeek u w)).getD 0 →
      acceptedSinceRotate s e w ops sofar ≤ 3 := by
  induction ops with
  | nil =>
    intro s sofar hcap hso
    simp only [acceptedSinceRotate]
    rw [hso, held_eq s.users "" e w]
    exact attemptsThisWeek_getD_le s hcap "" e w
  | cons op ops ih =>
    intro s sofar hcap hso
    cases op with
    | rotate tie =>
      simp only [acceptedSinceRotate]
      apply ih _ _ (attemptCap_resetLeaderboard tie s)
      rw [held_eq _ "" e w, attemptsThisWeek_after_reset]
    | submit req =>
      simp only [acceptedSinceRotate]
      apply ih _ _ (attemptCap_submit s req hcap)
      rw [held_submit, hso]

/-- In a run without rotation the count since the last rotation is the count over the run. -/
theorem acceptedSinceRotate_eq (e : String) (w : Int) (ops : List Op) :
    ∀ (s : Store) (sofar : Nat), (∀ tie : TieOrder, Op.rotate tie ∉ ops) →
      acceptedSinceRotate s e w ops sofar = sofar + acceptedCount s e w ops := by
  induction ops with
  | nil => intro s sofar _; simp [acceptedSinceRotate, acceptedCount]
  | cons op ops ih =>
    intro s sofar hno
    have hno2 : ∀ tie : TieOrder, Op.rotate tie ∉ ops :=
      fun tie h => hno tie (List.mem_cons_of_mem _ h)
    cases op with
    | rotate tie => exact absurd (List.mem_cons_self _ _) (hno tie)
    | submit req =>
      simp only [acceptedSinceRotate, acceptedCount, step]
      rw [ih _ _ hno2, Nat.add_assoc]

/-- C13, as stated, fails: from the empty store (no users) the run `replayOps` scores four
submissions by one email for week 1, three before and one after the second rotation. -/
theorem accepted_count_exceeds_three :
    emptyStore.users = [] ∧ ¬ (acceptedCount emptyStore "ann@x.io" 1 replayOps ≤ 3) := by
  decide

/-- C13, amended. In every sequential run of submissions and rotations from a store with no
users, the number of scored submissions made by one email for one week value since the last
rotation of the run (since the start when there is none) is at most 3; in particular a run
without rotation scores at most 3 submissions per email and week. -/
theorem accepted_since_rotate_le_three (s : Store) (hs : s.users = []) (ops : List Op)
    (e : String) (w : Int) :
    acceptedSinceRotate s e w ops 0 ≤ 3 ∧
    ((∀ tie : TieOrder, Op.rotate tie ∉ ops) → acceptedCount s e w ops ≤ 3) := by
  have hcap : AttemptCap s := by
    intro u hu
    rw [hs] at hu
    cases hu
  have hle : acceptedSinceRotate s e w ops 0 ≤ 3 :=
    acceptedSinceRotate_le e w ops s 0 hcap (by simp [findUser, hs])
  refine ⟨hle, fun hno => ?_⟩
  rw [acceptedSinceRotate_eq e w ops s 0 hno] at hle
  omega

/-- C13 witness: in the run `replayOps` from the empty store one submission by Ann for week 1 is
scored after the last rotation. -/
theorem accepted_since_rotate_le_three_witness :
    emptyStore.users = [] ∧
    acceptedSinceRotate emptyStore "ann@x.io" 1 replayOps 0 = 1 ∧
    acceptedSinceRotate emptyStore "ann@x.io" 1 replayOps 0 ≤ 3 :=
  ⟨rfl, by decide, (accepted_since_rotate_le_three emptyStore rfl replayOps "ann@x.io" 1).1⟩

/-! ## Weeks of the Leaderboard and Problem collections -/

/-- No stored Leaderboard week exceeds `latestWeek`. -/
theorem le_latestWeek (lbs : List Leaderboard) : ∀ l ∈ lbs, l.week ≤ latestWeek lbs := by
  intro l hl
  obtain ⟨m, _, hmax, hlw⟩ := latestWeek_max lbs (List.ne_nil_of_mem hl)
  rw [hlw]
  exact hmax l hl

/-- After the job appended its record, the latest week is the week of that record, provided the
latest week before was a safe integer. -/
theorem latestWeek_append (lbs : List Leaderboard) (tp : List Player)
    (hlo : -(2 ^ 53) < latestWeek lbs) (hhi : latestWeek lbs < 2 ^ 53) :
    latestWeek (lbs ++ [⟨jsAddOne (latestWeek lbs), tp⟩]) = latestWeek lbs + 1 := by
  rw [jsAddOne_of_safe _ (by omega) hhi]
  obtain ⟨m, hm, hmax, hlw⟩ :=
    latestWeek_max (lbs ++ [⟨latestWeek lbs + 1, tp⟩]) (by simp)
  rw [hlw]
  have hnew : latestWeek lbs + 1 ≤ m.week :=
    hmax ⟨latestWeek lbs + 1, tp⟩ (by simp)
  rcases List.mem_append.1 hm with hold | hlast
  · have := le_latestWeek lbs m hold
    omega
  · have : m = ⟨latestWeek lbs + 1, tp⟩ := by simpa using hlast
    rw [this]

/-- A submission does not touch the Leaderboard and Problem collections. -/
theorem submit_keeps_history (s : Store) (req : Body) :
    (submit s req).1.leaderboards = s.leaderboards ∧ (submit s req).1.problems = s.problems := by
  rcases submit_cases s req with ⟨h, _⟩ | ⟨n, e, a, w, p, -, -, -, -, -, -, -, h⟩ <;>
    rw [h] <;> exact ⟨rfl, rfl⟩

/-- One operation moves a safe latest week up by at most one. -/
theorem latestWeek_step (s : Store) (op : Op)
    (hlo : -(2 ^ 53) < latestWeek s.leaderboards) (hhi : latestWeek s.leaderboards < 2 ^ 53) :
    latestWeek s.leaderboards ≤ latestWeek (step s op).leaderboards ∧
      latestWeek (step s op).leaderboards ≤ latestWeek s.leaderboards + 1 := by
  cases op with
  | submit req =>
    simp only [step, (submit_keeps_history s req).1]
    omega
  | rotate tie =>
    simp only [step, resetLeaderboard]
    rw [latestWeek_append _ _ hlo hhi]
    omega

/-- Distinct Leaderboard weeks stay distinct under every operation on a store whose latest
week is a safe integer. -/
theorem leaderboard_weeks_nodup_step (s : Store) (op : Op)
    (hlo : -(2 ^ 53) < latestWeek s.leaderboards) (hhi : latestWeek s.leaderboards < 2 ^ 53)
    (h : (s.leaderboards.map (fun l => l.week)).Nodup) :
    ((step s op).leaderboards.map (fun l => l.week)).Nodup := by
  cases op with
  | submit req =>
    simp only [step, (submit_keeps_history s req).1]
    exact h
  | rotate tie =>
    simp only [step, resetLeaderboard, List.map_append, List.map_cons, List.map_nil]
    rw [List.nodup_append]
    refine ⟨h, List.nodup_singleton _, ?_⟩
    intro x hx hx2
    obtain ⟨l, hl, rfl⟩ := List.mem_map.1 hx
    have h1 := le_latestWeek s.leaderboards l hl
    have h2 : l.week = jsAddOne (latestWeek s.leaderboards) := by simpa using hx2
    rw [jsAddOne_of_safe _ (by omega) hhi] at h2
    omega

/-- Distinct Leaderboard weeks stay distinct over a run that keeps the latest week below
`2 ^ 53`. -/
theorem leaderboard_weeks_nodup_run (ops : List Op) :
    ∀ s : Store, -(2 ^ 53) < latestWeek s.leaderboards →
      latestWeek s.leaderboards + (ops.length : Int) < 2 ^ 53 →
      (s.leaderboards.map (fun l => l.week)).Nodup →
      ((run s ops).leaderboards.map (fun l => l.week)).Nodup := by
  induction ops with
  | nil => intro s _ _ h; exact h
  | cons op ops ih =>
    intro s hlo hroom h
    simp only [List.length_cons, Nat.cast_add, Nat.cast_one] at hroom
    have hhi : latestWeek s.leaderboards < 2 ^ 53 := by omega
    obtain ⟨h1, h2⟩ := latestWeek_step s op hlo hhi
    exact ih (step s op) (by omega) (by omega) (leaderboard_weeks_nodup_step s op hlo hhi h)

/-- Being behind the Leaderboard history is kept by every operation on a store whose latest
week is a safe integer, and so are distinct Problem weeks. -/
theorem problemsBehind_step (s : Store) (op : Op)
    (hlo : -(2 ^ 53) < latestWeek s.leaderboards) (hhi : latestWeek s.leaderboards < 2 ^ 53)
    (h : ProblemsBehind s) :
    ProblemsBehind (step s op) ∧
      ((s.problems.map (fun p => p.week)).Nodup →
        ((step s op).problems.map (fun p => p.week)).Nodup) := by
  cases op with
  | submit req =>
    simp only [step, ProblemsBehind, (submit_keeps_history s req).1,
      (submit_keeps_history s req).2]
    exact ⟨h, fun hn => hn⟩
  | rotate tie =>
    have hweek : jsAddOne (latestWeek s.leaderboards) = latestWeek s.leaderboards + 1 :=
      jsAddOne_of_safe _ (by omega) hhi
    constructor
    · intro p hp
      simp only [step, resetLeaderboard] at hp ⊢
      rw [latestWeek_append _ _ hlo hhi]
      rcases List.mem_append.1 hp with hold | hlast
      · have := h p hold
        omega
      · have : p = ⟨jsAddOne (latestWeek s.leaderboards), "NewAnswerHere"⟩ := by
          simpa using hlast
        rw [this, hweek]
    · intro hn
      simp only [step, resetLeaderboard, List.map_append, List.map_cons, List.map_nil]
      rw [List.nodup_append]
      refine ⟨hn, List.nodup_singleton _, ?_⟩
      intro x hx hx2
      obtain ⟨q, hq, rfl⟩ := List.mem_map.1 hx
      have h1 := h q hq
      have h2 : q.week = jsAddOne (latestWeek s.leaderboards) := by simpa using hx2
      rw [hweek] at h2
      omega

/-- Over a whole run that keeps the latest week below `2 ^ 53`, from a store that is behind
the Leaderboard history. -/
theorem problemsBehind_run (ops : List Op) :
    ∀ s : Store, -(2 ^ 53) < latestWeek s.leaderboards →
      latestWeek s.leaderboards + (ops.length : Int) < 2 ^ 53 →
      ProblemsBehind s →
      ProblemsBehind (run s ops) ∧
        ((s.problems.map (fun p => p.week)).Nodup →
          ((run s ops).problems.map (fun p => p.week)).Nodup) := by
  induction ops with
  | nil => intro s _ _ h; exact ⟨h, fun hn => hn⟩
  | cons op ops ih =>
    intro s hlo hroom h
    simp only [List.length_cons, Nat.cast_add, Nat.cast_one] at hroom
    have hhi : latestWeek s.leaderboards < 2 ^ 53 := by omega
    obtain ⟨k1, k2⟩ := latestWeek_step s op hlo hhi
    obtain ⟨h1, h2⟩ := problemsBehind_step s op hlo hhi h
    obtain ⟨h3, h4⟩ := ih (step s op) (by omega) (by omega) h1
    exact ⟨h3, fun hn => h4 (h2 hn)⟩

/-- C14, as stated, fails: in the store with the week-1 problem and no Leaderboard record the
job derives week 1 from the (empty) Leaderboard history, so the Problem it creates has a week
that is not greater than the stored one, and two Problem records share week 1. -/
theorem rotate_problem_week_clash :
    (resetLeaderboard collectionOrder weekOneStore).problems =
      [⟨1, "42"⟩, ⟨1, "NewAnswerHere"⟩] ∧
    ¬ (∀ q ∈ weekOneStore.problems,
        ∀ p ∈ (resetLeaderboard collectionOrder weekOneStore).problems.getLast?,
          q.week < p.week) ∧
    ¬ ((resetLeaderboard collectionOrder weekOneStore).problems.map (fun p => p.week)).Nodup := by
  decide

/-- C14, amended. For every store in which no Problem week exceeds the latest Leaderboard week
(0 when there is no Leaderboard record) and that latest week is a safe integer (strictly between
`-(2 ^ 53)` and `2 ^ 53`), the Problem record created by the job has a week strictly greater
than the week of every Problem record already in the store; the condition on the Problem weeks
holds again after every run of submissions and rotations that keeps the latest week below
`2 ^ 53`, so over such a run from a store with pairwise distinct Problem weeks no two Problem
records ever share a week value. -/
theorem rotate_problem_week_fresh (s : Store)
    (h : ∀ p ∈ s.problems, p.week ≤ latestWeek s.leaderboards)
    (hlo : -(2 ^ 53) < latestWeek s.leaderboards) :
    (latestWeek s.leaderboards < 2 ^ 53 → ∀ tie : TieOrder, ∃ p : Problem,
      (resetLeaderboard tie s).problems = s.problems ++ [p] ∧
      ∀ q ∈ s.problems, q.week < p.week) ∧
    ∀ ops : List Op, latestWeek s.leaderboards + (ops.length : Int) < 2 ^ 53 →
      (∀ p ∈ (run s ops).problems, p.week ≤ latestWeek (run s ops).leaderboards) ∧
      ((s.problems.map (fun p => p.week)).Nodup →
        ((run s ops).problems.map (fun p => p.week)).Nodup) := by
  refine ⟨fun hhi tie => ⟨⟨jsAddOne (latestWeek s.leaderboards), "NewAnswerHere"⟩, rfl,
    fun q hq => ?_⟩, fun ops hroom => problemsBehind_run ops s hlo hroom h⟩
  have := h q hq
  show q.week < jsAddOne (latestWeek s.leaderboards)
  rw [jsAddOne_of_safe _ (by omega) hhi]
  omega

/-- C14 witness: in the week-5 store the only Problem has week 5, the latest Leaderboard week
is 5, and the job creates the Problem for week 6. -/
theorem rotate_problem_week_fresh_witness :
    (∀ p ∈ weekFiveStore.problems, p.week ≤ latestWeek weekFiveStore.leaderboards) ∧
    latestWeek weekFiveStore.leaderboards = 5 ∧
    (resetLeaderboard collectionOrder weekFiveStore).problems =
      [⟨5, "x"⟩, ⟨6, "NewAnswerHere"⟩] ∧
    ∃ p : Problem,
      (resetLeaderboard collectionOrder weekFiveStore).problems =
        weekFiveStore.problems ++ [p] ∧
      ∀ q ∈ weekFiveStore.problems, q.week < p.week :=
  ⟨by decide, by decide, by decide,
   (rotate_problem_week_fresh weekFiveStore (by decide) (by decide)).1 (by decide)
     collectionOrder⟩

/-- C15, as stated, fails: the only Leaderboard record has week `2 ^ 53`; the job computes
`latestWeek + 1` in doubles, which is `2 ^ 53` again, so it appends a second record with the
same week: the new week is not strictly greater and the weeks are no longer distinct. -/
theorem leaderboard_week_repeats :
    (weekMaxStore.leaderboards.map (fun l => l.week)).Nodup ∧
    (run weekMaxStore [Op.rotate collectionOrder]).leaderboards.map (fun l => l.week) =
      [9007199254740992, 9007199254740992] ∧
    ¬ ((run weekMaxStore [Op.rotate collectionOrder]).leaderboards.map
      (fun l => l.week)).Nodup := by
  decide

/-- C15, amended. Leaderboard weeks are unique while they are safe integers: from a store whose
Leaderboard records have pairwise distinct weeks and whose latest week is above `-(2 ^ 53)` (the
empty store is one), every run of submissions and rotations that keeps the latest week below
`2 ^ 53` ends in a store whose Leaderboard records have pairwise distinct weeks; and when the
latest week is below `2 ^ 53` the job appends a record whose week is strictly greater than
every Leaderboard week stored before. -/
theorem leaderboard_weeks_unique (s : Store)
    (h : (s.leaderboards.map (fun l => l.week)).Nodup)
    (hlo : -(2 ^ 53) < latestWeek s.leaderboards) :
    (∀ ops : List Op, latestWeek s.leaderboards + (ops.length : Int) < 2 ^ 53 →
      ((run s ops).leaderboards.map (fun l => l.week)).Nodup) ∧
    (latestWeek s.leaderboards < 2 ^ 53 → ∀ tie : TieOrder, ∃ lb : Leaderboard,
      (resetLeaderboard tie s).leaderboards = s.leaderboards ++ [lb] ∧
      ∀ l ∈ s.leaderboards, l.week < lb.week) := by
  refine ⟨fun ops hroom => leaderboard_weeks_nodup_run ops s hlo hroom h, fun hhi tie => ?_⟩
  refine ⟨⟨jsAddOne (latestWeek s.leaderboards), ((sortedUsers tie s.users).take 3).map project⟩,
    rfl, fun l hl => ?_⟩
  have := le_latestWeek s.leaderboards l hl
  show l.week < jsAddOne (latestWeek s.leaderboards)
  rw [jsAddOne_of_safe _ (by omega) hhi]
  omega

/-- C15 witness: the empty store has distinct Leaderboard weeks, and after the run `replayOps`
(two rotations) the weeks are 1 and 2. -/
theorem leaderboard_weeks_unique_witness :
    (emptyStore.leaderboards.map (fun l => l.week)).Nodup ∧
    (run emptyStore replayOps).leaderboards.map (fun l => l.week) = [1, 2] ∧
    ((run emptyStore replayOps).leaderboards.map (fun l => l.week)).Nodup :=
  ⟨by decide, by decide,
   (leaderboard_weeks_unique emptyStore (by decide) (by decide)).1 replayOps (by decide)⟩

/-! ## The User collection under the operations -/

/-- The emails after an accepted submission: one more at the end for an unseen email, the same
list otherwise. -/
theorem emails_submit (t : Store) (n e a : String) (w : Int) (c : Bool) :
    (saveUser t.users e (scored ((findUser t.users e).getD (newUser n e)) w a c)).map
        (fun u => u.email) =
      t.users.map (fun u => u.email) ++ (if findUser t.users e = none then [e] else []) :=
  map_email_saveUser t.users e _ (scored_email t.users n e a w c)

/-- Every operation keeps the emails already stored, in place, and keeps them distinct. -/
theorem emails_step (t : Store) (op : Op) :
    (∃ extra : List String,
      (step t op).users.map (fun u => u.email) = t.users.map (fun u => u.email) ++ extra) ∧
    ((t.users.map (fun u => u.email)).Nodup →
      ((step t op).users.map (fun u => u.email)).Nodup) := by
  cases op with
  | rotate tie =>
    have hmap : (step t (Op.rotate tie)).users.map (fun u => u.email) =
        t.users.map (fun u => u.email) := by
      simp [step, resetLeaderboard, Function.comp_def]
    rw [hmap]
    exact ⟨⟨[], by simp⟩, fun h => h⟩
  | submit req =>
    rcases submit_cases t req with ⟨hs, _⟩ | ⟨n, e, a, w, p, rfl, -, -, -, -, -, -, hs⟩
    · simp only [step, hs]
      exact ⟨⟨[], by simp⟩, fun h => h⟩
    · simp only [step, hs, emails_submit]
      refine ⟨⟨_, rfl⟩, fun h => ?_⟩
      by_cases hf : findUser t.users e = none
      · simp only [hf, if_true]
        rw [List.nodup_append]
        refine ⟨h, List.nodup_singleton _, ?_⟩
        intro x hx hx2
        obtain ⟨u, hu, rfl⟩ := List.mem_map.1 hx
        have : u.email = e := by simpa using hx2
        exact findUser_eq_none.1 hf u hu this
      · simpa [hf] using h

/-- C16. The email is a unique key and users are never deleted: from a store with pairwise
distinct user emails every run of submissions and rotations ends in a store with pairwise
distinct user emails; every operation keeps the stored emails in place (the list of emails only
grows at the end); and an accepted submission makes the collection one record longer exactly
when no existing user has the submitted email, leaving its length as it was otherwise. -/
theorem user_emails_unique (s : Store)
    (h : (s.users.map (fun u => u.email)).Nodup) :
    (∀ ops : List Op, ((run s ops).users.map (fun u => u.email)).Nodup) ∧
    (∀ (t : Store) (op : Op), ∃ extra : List String,
      (step t op).users.map (fun u => u.email) = t.users.map (fun u => u.email) ++ extra) ∧
    (∀ (t : Store) (req : Body) (e : String),
      req.email = some e → (submit t req).2.status = 200 →
        ((submit t req).1.users.length = t.users.length + 1 ↔ ∀ u ∈ t.users, u.email ≠ e) ∧
        ((submit t req).1.users.length = t.users.length ↔ ∃ u ∈ t.users, u.email = e)) := by
  refine ⟨fun ops => ?_, fun t op => (emails_step t op).1, fun t req e he hst => ?_⟩
  · induction ops generalizing s with
    | nil => exact h
    | cons op ops ih => exact ih (step s op) ((emails_step s op).2 h)
  · rcases submit_cases t req with ⟨_, hno⟩ | ⟨n, f, a, w, p, rfl, -, -, -, -, -, -, hs⟩
    · exact absurd hst hno
    · simp only [Option.some.injEq] at he
      subst he
      have hlen : (submit t ⟨some n, some f, some a, some w⟩).1.users.length =
          t.users.length + (if findUser t.users f = none then 1 else 0) := by
        have := congrArg List.length (emails_submit t n f a w (decide (a = p.correctAnswer)))
        rw [hs]
        simp only [List.length_map, List.length_append] at this
        rw [this]
        by_cases hf : findUser t.users f = none <;> simp [hf]
      rw [hlen]
      by_cases hf : findUser t.users f = none
      · have hall := findUser_eq_none.1 hf
        simp only [hf, if_true]
        refine ⟨⟨fun _ => hall, fun _ => trivial⟩, ⟨fun h1 => by omega, ?_⟩⟩
        rintro ⟨u, hu, hue⟩
        exact absurd hue (hall u hu)
      · have hex : ∃ u ∈ t.users, u.email = f := by
          by_contra hcon
          exact hf (findUser_eq_none.2 (fun u hu hue => hcon ⟨u, hu, hue⟩))
        simp only [hf, if_false, Nat.add_zero]
        refine ⟨⟨fun h1 => by omega, fun hall => ?_⟩, ⟨fun _ => hex, fun _ => trivial⟩⟩
        obtain ⟨u, hu, hue⟩ := hex
        exact absurd hue (hall u hu)

/-- C16 witness: the week-5 store has four distinct emails; after Ann's accepted submission
for week 5 and an accepted first submission by Eve the emails are the old four followed by
Eve's, all distinct. -/
theorem user_emails_unique_witness :
    (weekFiveStore.users.map (fun u => u.email)).Nodup ∧
    (run weekFiveStore
      [Op.submit ⟨some "Ann", some "ann@x.io", some "x", some 5⟩,
       Op.submit ⟨some "Eve", some "eve@x.io", some "x", some 5⟩]).users.map
        (fun u => u.email) = ["ann@x.io", "bob@x.io", "cy@x.io", "di@x.io", "eve@x.io"] ∧
    ((run weekFiveStore
      [Op.submit ⟨some "Ann", some "ann@x.io", some "x", some 5⟩,
       Op.submit ⟨some "Eve", some "eve@x.io", some "x", some 5⟩]).users.map
        (fun u => u.email)).Nodup :=
  ⟨by decide, by decide, (user_emails_unique weekFiveStore (by decide)).1 _⟩

/-! ## Accepted submissions, one after the other -/

/-- An accepted submission: the reply, the untouched Problem collection, and the document
that `findUser` returns afterwards. -/
theorem submit_accept (s : Store) (n e a : String) (w : Int) (p : Problem)
    (hn : n ≠ "") (he : e ≠ "") (ha : a ≠ "") (hw : w ≠ 0)
    (hlim : attemptsThisWeek ((findUser s.users e).getD (newUser n e)) w < 3)
    (hp : findProblem s.problems w = some p) :
    (submit s ⟨some n, some e, some a, some w⟩).2 = submitted (decide (a = p.correctAnswer)) ∧
    (submit s ⟨some n, some e, some a, some w⟩).1.problems = s.problems ∧
    findUser (submit s ⟨some n, some e, some a, some w⟩).1.users e =
      some (scored ((findUser s.users e).getD (newUser n e)) w a
        (decide (a = p.correctAnswer))) := by
  have hsub := submit_of_valid s n e a w hn he ha hw
  have hlt : ¬ attemptsThisWeek ((findUser s.users e).getD (newUser n e)) w ≥ 3 := by omega
  simp only [hlt, if_false, hp] at hsub
  rw [hsub]
  exact ⟨rfl, rfl, findUser_saveUser _ _ _ (scored_email s.users n e a w _)⟩

/-- A submission by a user who holds three responses for the week is turned away and the
store stays as it is. -/
theorem submit_at_limit (s : Store) (n e a : String) (w : Int)
    (hn : n ≠ "") (he : e ≠ "") (ha : a ≠ "") (hw : w ≠ 0)
    (hlim : attemptsThisWeek ((findUser s.users e).getD (newUser n e)) w ≥ 3) :
    submit s ⟨some n, some e, some a, some w⟩ = (s, attemptLimit) := by
  rw [submit_of_valid s n e a w hn he ha hw]
  simp only [hlim, if_true]

/-- C17, as stated, fails: from the store with the week-1 problem and no users, after the
correct answer, a wrong answer and a third answer, the fourth submission for week 1 is turned
away with the attempt-limit reply while the attempts counter is 3, not 2. -/
theorem fourth_submission_attempts_not_two :
    (submit (run weekOneStore
        [Op.submit ⟨some "Ann", some "ann@x.io", some "42", some 1⟩,
         Op.submit ⟨some "Ann", some "ann@x.io", some "41", some 1⟩,
         Op.submit ⟨some "Ann", some "ann@x.io", some "40", some 1⟩])
      ⟨some "Ann", some "ann@x.io", some "39", some 1⟩).2 =
      ⟨400, "Maximum attempts reached for this week", none⟩ ∧
    (findUser (submit (run weekOneStore
        [Op.submit ⟨some "Ann", some "ann@x.io", some "42", some 1⟩,
         Op.submit ⟨some "Ann", some "ann@x.io", some "41", some 1⟩,
         Op.submit ⟨some "Ann", some "ann@x.io", some "40", some 1⟩])
      ⟨some "Ann", some "ann@x.io", some "39", some 1⟩).1.users "ann@x.io").map
        (fun u => u.attempts) = some 3 ∧
    ¬ ((findUser (submit (run weekOneStore
        [Op.submit ⟨some "Ann", some "ann@x.io", some "42", some 1⟩,
         Op.submit ⟨some "Ann", some "ann@x.io", some "41", some 1⟩,
         Op.submit ⟨some "Ann", some "ann@x.io", some "40", some 1⟩])
      ⟨some "Ann", some "ann@x.io", some "39", some 1⟩).1.users "ann@x.io").map
        (fun u => u.attempts) = some 2) := by
  decide

/-- C17, amended (scenario C). From a store with no users in which the week-1 lookup finds
the Problem `p`: after the same user has submitted the correct answer, then a wrong answer, then
a third answer for week 1, the fourth submission for week 1 is turned away with the
attempt-limit reply, the store is unchanged by it, and the user's attempts counter remains 3. -/
theorem fourth_submission_rejected (s : Store) (p : Problem) (n e a1 a2 a3 a4 : String)
    (hs : s.users = []) (hp : findProblem s.problems 1 = some p)
    (hn : n ≠ "") (he : e ≠ "")
    (h1 : a1 ≠ "") (h2 : a2 ≠ "") (h3 : a3 ≠ "") (h4 : a4 ≠ "")
    (hc1 : a1 = p.correctAnswer) (hc2 : a2 ≠ p.correctAnswer) :
    (submit s ⟨some n, some e, some a1, some 1⟩).2 = ⟨200, "Response submitted", some true⟩ ∧
    (submit (run s [Op.submit ⟨some n, some e, some a1, some 1⟩])
      ⟨some n, some e, some a2, some 1⟩).2 = ⟨200, "Response submitted", some false⟩ ∧
    submit (run s
        [Op.submit ⟨some n, some e, some a1, some 1⟩,
         Op.submit ⟨some n, some e, some a2, some 1⟩,
         Op.submit ⟨some n, some e, some a3, some 1⟩])
      ⟨some n, some e, some a4, some 1⟩ =
      (run s
        [Op.submit ⟨some n, some e, some a1, some 1⟩,
         Op.submit ⟨some n, some e, some a2, some 1⟩,
         Op.submit ⟨some n, some e, some a3, some 1⟩],
       ⟨400, "Maximum attempts reached for this week", none⟩) ∧
    (findUser (run s
        [Op.submit ⟨some n, some e, some a1, some 1⟩,
         Op.submit ⟨some n, some e, some a2, some 1⟩,
         Op.submit ⟨some n, some e, some a3, some 1⟩]).users e).map (fun u => u.attempts) =
      some 3 := by
  have hw : (1 : Int) ≠ 0 := by decide
  have hnone : findUser s.users e = none := by simp [findUser, hs]
  -- first submission
  have hl1 : attemptsThisWeek ((findUser s.users e).getD (newUser n e)) 1 < 3 := by
    simp [hnone, attemptsThisWeek, newUser]
  obtain ⟨r1, q1, f1⟩ := submit_accept s n e a1 1 p hn he h1 hw hl1 hp
  rw [hnone] at f1
  simp only [Option.getD_none] at f1
  -- second submission
  have hl2 : attemptsThisWeek
      ((findUser (submit s ⟨some n, some e, some a1, some 1⟩).1.users e).getD (newUser n e)) 1
        < 3 := by
    rw [f1]
    simp [attemptsThisWeek, scored, newUser]
  obtain ⟨r2, q2, f2⟩ := submit_accept (submit s ⟨some n, some e, some a1, some 1⟩).1
    n e a2 1 p hn he h2 hw hl2 (by rw [q1]; exact hp)
  rw [f1] at f2
  simp only [Option.getD_some] at f2
  -- third submission
  have hl3 : attemptsThisWeek
      ((findUser (submit (submit s ⟨some n, some e, some a1, some 1⟩).1
        ⟨some n, some e, some a2, some 1⟩).1.users e).getD (newUser n e)) 1 < 3 := by
    rw [f2]
    simp [attemptsThisWeek, scored, newUser]
  obtain ⟨_, _, f3⟩ := submit_accept
    (submit (submit s ⟨some n, some e, some a1, some 1⟩).1 ⟨some n, some e, some a2, some 1⟩).1
    n e a3 1 p hn he h3 hw hl3 (by rw [q2, q1]; exact hp)
  rw [f2] at f3
  simp only [Option.getD_some] at f3
  -- fourth submission
  have hl4 : attemptsThisWeek
      ((findUser (run s
        [Op.submit ⟨some n, some e, some a1, some 1⟩,
         Op.submit ⟨some n, some e, some a2, some 1⟩,
         Op.submit ⟨some n, some e, some a3, some 1⟩]).users e).getD (newUser n e)) 1 ≥ 3 := by
    simp only [run, List.foldl, step]
    rw [f3]
    simp [attemptsThisWeek, scored, newUser]
  refine ⟨?_, ?_, submit_at_limit _ n e a4 1 hn he h4 hw hl4, ?_⟩
  · rw [r1]
    simp [submitted, hc1]
  · simp only [run, List.foldl, step]
    rw [r2]
    simp [submitted, hc2]
  · simp only [run, List.foldl, step]
    rw [f3]
    simp only [scored, newUser, Option.map_some']
    decide

/-- C17 witness: Ann's four week-1 submissions to the store with the week-1 problem. -/
theorem fourth_submission_rejected_witness :
    submit (run weekOneStore
        [Op.submit ⟨some "Ann", some "ann@x.io", some "42", some 1⟩,
         Op.submit ⟨some "Ann", some "ann@x.io", some "41", some 1⟩,
         Op.submit ⟨some "Ann", some "ann@x.io", some "40", some 1⟩])
      ⟨some "Ann", some "ann@x.io", some "39", some 1⟩ =
      (run weekOneStore
        [Op.submit ⟨some "Ann", some "ann@x.io", some "42", some 1⟩,
         Op.submit ⟨some "Ann", some "ann@x.io", some "41", some 1⟩,
         Op.submit ⟨some "Ann", some "ann@x.io", some "40", some 1⟩],
       ⟨400, "Maximum attempts reached for this week", none⟩) ∧
    (findUser (run weekOneStore
        [Op.submit ⟨some "Ann", some "ann@x.io", some "42", some 1⟩,
         Op.submit ⟨some "Ann", some "ann@x.io", some "41", some 1⟩,
         Op.submit ⟨some "Ann", some "ann@x.io", some "40", some 1⟩]).users "ann@x.io").map
        (fun u => u.attempts) = some 3 :=
  (fourth_submission_rejected weekOneStore ⟨1, "42"⟩ "Ann" "ann@x.io" "42" "41" "40" "39"
    rfl (by rfl) (by decide) (by decide) (by decide) (by decide) (by decide) (by decide)
    (by decide) (by decide)).2.2

/-! ## Score and history -/

/-- A counter that is at most `2 ^ 53` stays so under `x++`, moving up by one below the cap and
staying put at the cap. -/
theorem jsInc_capped (n : Nat) (h : n ≤ 2 ^ 53) : jsInc n = min (n + 1) (2 ^ 53) := by
  rcases Nat.lt_or_ge n (2 ^ 53) with hlt | hge
  · rw [jsInc_of_lt n hlt]
    omega
  · have : n = 2 ^ 53 := Nat.le_antisymm h hge
    subst this
    rw [jsInc_two_pow]
    decide

/-- The scored document agrees with its history when the old document does. -/
theorem scored_consistent (old : User) (w : Int) (a : String) (c : Bool)
    (h : old.problemsSolved = min (old.responses.filter (fun r => r.correct)).length (2 ^ 53) ∧
      old.attempts ≤ 2 ^ 53 ∧ min old.responses.length (2 ^ 53) ≤ old.attempts) :
    (scored old w a c).problemsSolved =
        min ((scored old w a c).responses.filter (fun r => r.correct)).length (2 ^ 53) ∧
      (scored old w a c).attempts ≤ 2 ^ 53 ∧
      min (scored old w a c).responses.length (2 ^ 53) ≤ (scored old w a c).attempts := by
  obtain ⟨h1, h2, h3⟩ := h
  have hps : old.problemsSolved ≤ 2 ^ 53 := by omega
  have ha := jsInc_capped old.attempts h2
  have hp := jsInc_capped old.problemsSolved hps
  cases c
  · simp only [scored, List.filter_append, List.length_append, Bool.false_eq_true, if_false,
      List.filter_cons, List.filter_nil, List.length_nil, List.length_cons, ha]
    omega
  · simp only [scored, List.filter_append, List.length_append, if_true,
      List.filter_cons, List.filter_nil, List.length_nil, List.length_cons, ha, hp]
    omega

/-- Every operation keeps score and history in agreement. -/
theorem consistent_step (s : Store) (op : Op) (h : Consistent s) : Consistent (step s op) := by
  cases op with
  | rotate tie =>
    intro u hu
    simp only [step, resetLeaderboard, List.mem_map] at hu
    obtain ⟨u0, hu0, rfl⟩ := hu
    have := (h u0 hu0).2.1
    simp only [List.filter_nil, List.length_nil]
    omega
  | submit req =>
    rcases submit_cases s req with ⟨hs, _⟩ | ⟨n, e, a, w, p, rfl, -, -, -, -, -, -, hs⟩
    · simp only [step, hs]
      exact h
    · intro u hu
      simp only [step, hs] at hu
      rcases mem_saveUser hu with hu | rfl
      · exact h u hu
      · apply scored_consistent
        cases hf : findUser s.users e with
        | none => simp [newUser]
        | some v => exact h v (findUser_some hf).1

/-- Score and history agree after every run from a store in which they agree. -/
theorem consistent_run (ops : List Op) : ∀ s : Store, Consistent s → Consistent (run s ops) := by
  induction ops with
  | nil => intro s h; exact h
  | cons op ops ih => intro s h; exact ih (step s op) (consistent_step s op h)

/-- Repeating the correct answer `k` times while the week still has room, and the counter is
below `2 ^ 53`, scores each time. -/
theorem solved_after_replicate (n e a : String) (w : Int) (p : Problem)
    (hn : n ≠ "") (he : e ≠ "") (ha : a ≠ "") (hw : w ≠ 0) (hc : a = p.correctAnswer) (k : Nat) :
    ∀ t : Store, findProblem t.problems w = some p →
      attemptsThisWeek ((findUser t.users e).getD (newUser n e)) w + k ≤ 3 →
      ((findUser t.users e).getD (newUser n e)).problemsSolved + k ≤ 2 ^ 53 →
      ((findUser (run t (List.replicate k (Op.submit ⟨some n, some e, some a, some w⟩))).users
          e).getD (newUser n e)).problemsSolved =
        ((findUser t.users e).getD (newUser n e)).problemsSolved + k := by
  induction k with
  | zero => intro t _ _ _; simp [run]
  | succ k ih =>
    intro t hp hroom hsafe
    obtain ⟨_, q1, f1⟩ := submit_accept t n e a w p hn he ha hw (by omega) hp
    have hstep : run t (List.replicate (k + 1) (Op.submit ⟨some n, some e, some a, some w⟩)) =
        run (submit t ⟨some n, some e, some a, some w⟩).1
          (List.replicate k (Op.submit ⟨some n, some e, some a, some w⟩)) := by
      simp [run, List.replicate_succ, step]
    have hinc : (scored ((findUser t.users e).getD (newUser n e)) w a
        (decide (a = p.correctAnswer))).problemsSolved =
        ((findUser t.users e).getD (newUser n e)).problemsSolved + 1 := by
      simp only [scored, hc, decide_True, if_true]
      exact jsInc_of_lt _ (by omega)
    rw [hstep, ih _ (by rw [q1]; exact hp) (by
      rw [f1]
      simp only [Option.getD_some, attemptsThisWeek_scored, if_true]
      omega) (by
      rw [f1]
      simp only [Option.getD_some, hinc]
      omega), f1]
    simp only [Option.getD_some, hinc]
    omega

/-- C18, as stated, fails: the four users of `tiedStore` tie on both keys; a first request
that meets them in collection order lists Ann, Bob, Cy, Di, and a second request right after
it that meets them in reverse order lists Di, Cy, Bob, Ann, so the two results differ. -/
theorem leaderboard_repeat_differs :
    (leaderboardRequest collectionOrder tiedStore).1 = tiedStore ∧
    (leaderboardRequest collectionOrder tiedStore).2 =
      [⟨"Ann", 1, 2⟩, ⟨"Bob", 1, 2⟩, ⟨"Cy", 1, 2⟩, ⟨"Di", 1, 2⟩] ∧
    (leaderboardRequest reverseOrder (leaderboardRequest collectionOrder tiedStore).1).2 =
      [⟨"Di", 1, 2⟩, ⟨"Cy", 1, 2⟩, ⟨"Bob", 1, 2⟩, ⟨"Ann", 1, 2⟩] ∧
    ¬ ((leaderboardRequest reverseOrder (leaderboardRequest collectionOrder tiedStore).1).2 =
      (leaderboardRequest collectionOrder tiedStore).2) := by
  decide

/-- C18, amended. The leaderboard request is a pure read: the store it leaves is the store it
was given, and a second request right after the first returns a list of the same length that
shows the same `problemsSolved` and `attempts` at every position; the two lists are identical
when no two users tie on `(problemsSolved, attempts)`, and when the engine orders ties alike in
both requests. -/
theorem leaderboard_pure_read (tie tie2 : TieOrder) (s : Store) :
    (leaderboardRequest tie s).1 = s ∧
    (leaderboardRequest tie2 (leaderboardRequest tie s).1).2.length =
      (leaderboardRequest tie s).2.length ∧
    (leaderboardRequest tie2 (leaderboardRequest tie s).1).2.map playerKey =
      (leaderboardRequest tie s).2.map playerKey ∧
    ((s.users.map sortKey).Nodup →
      (leaderboardRequest tie2 (leaderboardRequest tie s).1).2 = (leaderboardRequest tie s).2) ∧
    (leaderboardRequest tie (leaderboardRequest tie s).1).2 = (leaderboardRequest tie s).2 := by
  have hkeys : (leaderboard tie2 s).map playerKey = (leaderboard tie s).map playerKey := by
    rw [leaderboard_keys, leaderboard_keys, sortedUsers_keys tie2 tie]
  refine ⟨rfl, ?_, hkeys, fun hnd => ?_, rfl⟩
  · have := congrArg List.length hkeys
    simpa using this
  · show leaderboard tie2 s = leaderboard tie s
    unfold leaderboard
    rw [sortedUsers_eq_of_nodup tie2 tie s.users hnd]

/-- C18 witness: in the week-5 store no two users tie, and a request in collection order
followed by one in reverse order returns the same list twice. -/
theorem leaderboard_pure_read_witness :
    (weekFiveStore.users.map sortKey).Nodup ∧
    (leaderboardRequest collectionOrder weekFiveStore).2 =
      [⟨"Bob", 2, 4⟩, ⟨"Cy", 1, 7⟩, ⟨"Ann", 1, 9⟩, ⟨"Di", 0, 2⟩] ∧
    (leaderboardRequest reverseOrder (leaderboardRequest collectionOrder weekFiveStore).1).2 =
      (leaderboardRequest collectionOrder weekFiveStore).2 :=
  ⟨by decide, by decide,
   (leaderboard_pure_read collectionOrder reverseOrder weekFiveStore).2.2.2.1 (by decide)⟩

/-- C19. Score/history consistency: after every run of submissions and rotations from a store
with no users, each user's `problemsSolved` is the number of that user's responses marked
correct and the user holds no more responses than `attempts`, both up to the cap `2 ^ 53` at
which a double counter stops growing; so for a history of at most `2 ^ 53` responses, which every
JavaScript array is, `problemsSolved` equals the number of correct responses and
`responses.length ≤ attempts`.  And `problemsSolved` counts correct submissions, not distinct
problems: a user who submits the correct answer for one week `k` times, with room for `k` more
attempts that week (so `k ≤ 3`) and a counter that stays within `2 ^ 53`, has `problemsSolved`
raised by `k`. -/
theorem score_history_consistent (s : Store) (hs : s.users = []) :
    (∀ ops : List Op, ∀ u ∈ (run s ops).users,
      u.problemsSolved = min (u.responses.filter (fun r => r.correct)).length (2 ^ 53) ∧
      min u.responses.length (2 ^ 53) ≤ u.attempts ∧
      (u.responses.length ≤ 2 ^ 53 →
        u.problemsSolved = (u.responses.filter (fun r => r.correct)).length ∧
          u.responses.length ≤ u.attempts)) ∧
    (∀ (t : Store) (n e a : String) (w : Int) (p : Problem) (k : Nat),
      n ≠ "" → e ≠ "" → a ≠ "" → w ≠ 0 →
      findProblem t.problems w = some p → a = p.correctAnswer →
      attemptsThisWeek ((findUser t.users e).getD (newUser n e)) w + k ≤ 3 →
      ((findUser t.users e).getD (newUser n e)).problemsSolved + k ≤ 2 ^ 53 →
      ((findUser (run t (List.replicate k (Op.submit ⟨some n, some e, some a, some w⟩))).users
          e).getD (newUser n e)).problemsSolved =
        ((findUser t.users e).getD (newUser n e)).problemsSolved + k) := by
  refine ⟨fun ops u hu => ?_, ?_⟩
  · have hcons : Consistent (run s ops) := by
      apply consistent_run
      intro v hv
      rw [hs] at hv
      cases hv
    obtain ⟨h1, _, h3⟩ := hcons u hu
    have hfilter : (u.responses.filter (fun r => r.correct)).length ≤ u.responses.length :=
      List.length_filter_le _ _
    refine ⟨h1, h3, fun hlen => ⟨?_, ?_⟩⟩
    · rw [h1]
      omega
    · omega
  · intro t n e a w p k hn he ha hw hp hc hroom hsafe
    exact solved_after_replicate n e a w p hn he ha hw hc k t hp hroom hsafe

/-- C19 witness: from the store with the week-1 problem and no users, Ann gives the correct
week-1 answer three times and ends with 3 problems solved, 3 correct responses and 3
attempts. -/
theorem score_history_consistent_witness :
    weekOneStore.users = [] ∧
    (run weekOneStore
      (List.replicate 3 (Op.submit ⟨some "Ann", some "ann@x.io", some "42", some 1⟩))).users =
      [⟨"Ann", "ann@x.io", 3, 3, [⟨1, "42", true⟩, ⟨1, "42", true⟩, ⟨1, "42", true⟩]⟩] ∧
    ∀ u ∈ (run weekOneStore
        (List.replicate 3 (Op.submit ⟨some "Ann", some "ann@x.io", some "42", some 1⟩))).users,
      u.problemsSolved = (u.responses.filter (fun r => r.correct)).length ∧
        u.responses.length ≤ u.attempts :=
  ⟨rfl, by decide,
   fun u hu => ((score_history_consistent weekOneStore rfl).1 _ u hu).2.2 (by
     have h3 : (run weekOneStore (List.replicate 3
         (Op.submit ⟨some "Ann", some "ann@x.io", some "42", some 1⟩))).users =
         [⟨"Ann", "ann@x.io", 3, 3, [⟨1, "42", true⟩, ⟨1, "42", true⟩, ⟨1, "42", true⟩]⟩] := by
       decide
     rw [h3] at hu
     simp only [List.mem_singleton] at hu
     subst hu
     norm_num)⟩

/-- C20. Week 0 is treated as a missing field: whatever the store holds, a submission with
non-empty name, email and answer and week 0 is answered with status 400 "Missing required
fields" and leaves the store unchanged, whereas the same submission with any non-zero integer
week is not answered with the validation failure. -/
theorem week_zero_missing (s : Store) (n e a : String)
    (hn : n ≠ "") (he : e ≠ "") (ha : a ≠ "") :
    submit s ⟨some n, some e, some a, some 0⟩ = (s, ⟨400, "Missing required fields", none⟩) ∧
    ∀ w : Int, w ≠ 0 →
      (submit s ⟨some n, some e, some a, some w⟩).2 ≠
        ⟨400, "Missing required fields", none⟩ := by
  constructor
  · apply submit_of_invalid
    simp [notNum]
  · intro w hw
    rw [submit_of_valid s n e a w hn he ha hw]
    split
    · simp [attemptLimit]
    · split
      · simp [problemNotFound]
      · simp [submitted]

/-- C20 witness: the store holds a Problem with week 0, yet Ann's submission for week 0 is
turned away as missing fields, while the same submission for week 1 is scored. -/
theorem week_zero_missing_witness :
    weekZeroStore.problems = [⟨0, "zero"⟩, ⟨1, "42"⟩] ∧
    (submit weekZeroStore ⟨some "Ann", some "ann@x.io", some "zero", some 0⟩ =
      (weekZeroStore, ⟨400, "Missing required fields", none⟩) ∧
     ∀ w : Int, w ≠ 0 →
      (submit weekZeroStore ⟨some "Ann", some "ann@x.io", some "zero", some w⟩).2 ≠
        ⟨400, "Missing required fields", none⟩) ∧
    (submit weekZeroStore ⟨some "Ann", some "ann@x.io", some "zero", some 1⟩).2 =
      ⟨200, "Response submitted", some false⟩ :=
  ⟨rfl,
   week_zero_missing weekZeroStore "Ann" "ann@x.io" "zero" (by decide) (by decide) (by decide),
   by decide⟩

end PuzzleBackend
